import Mathlib

/-!
Verification development for the ItsyPSD loader (`itsypsd.cpp`, `psd::load`).

The C++ source is shallowly embedded as executable Lean functions over a byte
buffer modeled as `List Nat` (each entry a `char`; every read casts through
`uint8_t`, i.e. `% 256`).  The cursor is an explicit `Nat` position.  32-bit
unsigned arithmetic from the source is modeled with explicit `% U32`.
Fallible operations return `Except Err _`.  Two operations in the source have
no bounds check and can touch memory out of bounds (undefined behavior in
C++); they are modeled by the distinguished error values `Err.oobRead`
(the unchecked `std::copy` of a raw channel), `Err.ubPopEmpty`
(`std::vector::pop_back` on an empty group stack) and `Err.oobWrite`
(an out-of-range `std::vector::operator[]` write in the compositor).
-/

/-- 2^32, the modulus of the source's `uint32_t` arithmetic. -/
def U32 : Nat := 4294967296

/-- Failure kinds of the decode.  `truncatedInput` models `throw "Truncated PSD"`;
`unsupportedFormat` models the `cerr` + `return false` paths and the
`assert(0)` on an unknown compression method; the remaining constructors mark
spots where the C++ has undefined behavior (no check at all in the source). -/
inductive Err where
  | truncatedInput
  | unsupportedFormat (field : String)
  | oobRead
  | ubPopEmpty
  | oobWrite
deriving DecidableEq

/-- A channel of a raw (on-disk) layer: `kind` (0=red, 1=green, 2=blue,
-1=transparency mask, -2=user mask, -3=user+vector mask) and decoded bytes. -/
structure RawChannel where
  kind : Int
  data : List Nat
deriving DecidableEq

/-- A raw on-disk layer record: bounding box, name bytes, group flag, channels.
Matches the local `struct layer` of `psd::load`. -/
structure RawLayer where
  top : Nat
  left : Nat
  bot : Nat
  right : Nat
  name : List Nat
  is_group : Bool
  channels : List RawChannel
deriving DecidableEq

/-- An output layer: hierarchical path (group names then own name), canvas
dimensions and the packed-pixel buffer.  Matches `psd::layer`. -/
structure OutLayer where
  path : List (List Nat)
  width : Nat
  height : Nat
  pixels : List Nat
deriving DecidableEq

/-- The mutable members of the `psd` object that `psd::load` assigns:
canvas `width`, `height` and the output `layers` list. -/
structure PsdState where
  width : Nat
  height : Nat
  layers : List OutLayer
deriving DecidableEq

/-- `read8`: bounds-checked single byte read (the `(uint8_t)*i++` cast is the
`% 256`).  Returns the byte and the advanced position. -/
def read8 (buf : List Nat) (pos : Nat) : Except Err (Nat × Nat) :=
  if pos + 1 > buf.length then .error .truncatedInput
  else .ok (buf.getD pos 0 % 256, pos + 1)

/-- `read16`: bounds-checked big-endian 16-bit read. -/
def read16 (buf : List Nat) (pos : Nat) : Except Err (Nat × Nat) :=
  if pos + 2 > buf.length then .error .truncatedInput
  else .ok ((buf.getD pos 0 % 256) * 256 + buf.getD (pos + 1) 0 % 256, pos + 2)

/-- `read32`: bounds-checked big-endian 32-bit read.  (The source's second
check `i + 4 < i` guards pointer wraparound, which cannot occur for `Nat`
positions.) -/
def read32 (buf : List Nat) (pos : Nat) : Except Err (Nat × Nat) :=
  if pos + 4 > buf.length then .error .truncatedInput
  else .ok ((((buf.getD pos 0 % 256) * 256 + buf.getD (pos + 1) 0 % 256) * 256 +
      buf.getD (pos + 2) 0 % 256) * 256 + buf.getD (pos + 3) 0 % 256, pos + 4)

/-- `skip`: bounds-checked cursor advance by `amt` (reads no bytes). -/
def skipN (buf : List Nat) (amt pos : Nat) : Except Err Nat :=
  if pos + amt > buf.length then .error .truncatedInput
  else .ok (pos + amt)

/-- Reinterpret a 16-bit unsigned value as the source's `(int16_t)` cast. -/
def toInt16 (v : Nat) : Int :=
  if v < 32768 then (v : Int) else (v : Int) - 65536

/-- `uint32_t` subtraction `a - b` (wraps modulo 2^32). -/
def w32sub (a b : Nat) : Nat := (a + U32 - b % U32) % U32

/-- `uint32_t` decrement by one (`y--` can wrap from 0 to 2^32-1). -/
def w32dec (y : Nat) : Nat := (y + (U32 - 1)) % U32

/-- The reserved group-closing sentinel layer name, `"</Layer group>"`,
as its byte sequence. -/
def closeSentinel : List Nat :=
  [0x3C, 0x2F, 0x4C, 0x61, 0x79, 0x65, 0x72, 0x20, 0x67, 0x72, 0x6F, 0x75, 0x70, 0x3E]

/-- Channel descriptor loop of the layer record parser: for each channel read
its `kind` (as `int16_t`) and a 32-bit per-channel byte length that is read
into a local and then discarded (`uint32_t length = read32(offset,e);`). -/
def parseChannelDescs (buf : List Nat) : Nat → Nat → Except Err (List RawChannel × Nat)
  | 0, pos => .ok ([], pos)
  | n + 1, pos =>
    match read16 buf pos with
    | .error e => .error e
    | .ok (k, p1) =>
      match read32 buf p1 with
      | .error e => .error e
      | .ok (_len, p2) =>
        match parseChannelDescs buf n p2 with
        | .error e => .error e
        | .ok (chs, p3) => .ok ({ kind := toInt16 k, data := [] } :: chs, p3)

/-- The layer-name byte loop: `for (uint32_t j = 1; j < len; j++) name += read8`. -/
def readNameBytes (buf : List Nat) : Nat → Nat → Except Err (List Nat × Nat)
  | 0, pos => .ok ([], pos)
  | n + 1, pos =>
    match read8 buf pos with
    | .error e => .error e
    | .ok (b, p1) =>
      match readNameBytes buf n p1 with
      | .error e => .error e
      | .ok (bs, p2) => .ok (b :: bs, p2)

/-- The name padding loop: `while (len & 3) read8(offset, e), len++;`
(the name field, length prefix included, is padded to a multiple of 4).
The loop body runs `(4 - len % 4) % 4 ≤ 3` times, so the structural `fuel`
parameter of 3 supplied by `readPadding` below always suffices and the
fuel-exhausted branch is unreachable (`readPaddingGo_fuel`). -/
def readPaddingGo (buf : List Nat) (fuel len pos : Nat) : Except Err Nat :=
  if len % 4 = 0 then .ok pos
  else
    match fuel with
    | 0 => .error .truncatedInput
    | fuel' + 1 =>
      match read8 buf pos with
      | .error e => .error e
      | .ok (_, p1) => readPaddingGo buf fuel' (len + 1) p1

/-- The name padding loop with its (always sufficient) iteration bound. -/
def readPadding (buf : List Nat) (len pos : Nat) : Except Err Nat :=
  readPaddingGo buf 3 len pos

/-- The tail of a layer record after the channel descriptors (lines 150-187
of the source): blend signature check, blend/opacity/clipping/flags, and the
extra-data block with mask data, blending ranges and padded name, the group
flag `(flags & 0x18) == 0x18`, and the final skip to the end of the
extra-data region (`skip(offset, end_extradata - offset, e)`; a negative
pointer difference converts to a huge `size_t`, which the source's skip
rejects as truncated). -/
def parseOneLayerRest (buf : List Nat) (top left bot right : Nat)
    (chs : List RawChannel) (pos : Nat) : Except Err (RawLayer × Nat) :=
  match read32 buf pos with
  | .error e => .error e
  | .ok (sig, p7) =>
  if sig ≠ 0x3842494D then .error (.unsupportedFormat "blendSignature") else
  match read32 buf p7 with
  | .error e => .error e
  | .ok (_blend, p8) =>
  match read8 buf p8 with
  | .error e => .error e
  | .ok (_opacity, p9) =>
  match read8 buf p9 with
  | .error e => .error e
  | .ok (_clipping, p10) =>
  match read8 buf p10 with
  | .error e => .error e
  | .ok (flags, p11) =>
  match read8 buf p11 with
  | .error e => .error e
  | .ok (_zero, p12) =>
  match read32 buf p12 with
  | .error e => .error e
  | .ok (lenExtra, p13) =>
  let endExtra := p13 + lenExtra
  match read32 buf p13 with
  | .error e => .error e
  | .ok (maskLen, p14) =>
  match skipN buf maskLen p14 with
  | .error e => .error e
  | .ok p15 =>
  match read32 buf p15 with
  | .error e => .error e
  | .ok (rangesLen, p16) =>
  match skipN buf rangesLen p16 with
  | .error e => .error e
  | .ok p17 =>
  match read8 buf p17 with
  | .error e => .error e
  | .ok (n0, p18) =>
  match readNameBytes buf n0 p18 with
  | .error e => .error e
  | .ok (nm, p19) =>
  match readPadding buf (1 + n0) p19 with
  | .error e => .error e
  | .ok p20 =>
  if p20 ≤ endExtra then
    match skipN buf (endExtra - p20) p20 with
    | .error e => .error e
    | .ok p21 =>
      .ok ({ top := top, left := left, bot := bot, right := right, name := nm,
             is_group := decide ((Nat.land flags 0x18) = 0x18), channels := chs }, p21)
  else .error .truncatedInput

/-- Parse one layer record (lines 139-188 of the source): bounding box,
channel descriptors, then the record tail `parseOneLayerRest`. -/
def parseOneLayer (buf : List Nat) (pos : Nat) : Except Err (RawLayer × Nat) :=
  match read32 buf pos with
  | .error e => .error e
  | .ok (top, p1) =>
  match read32 buf p1 with
  | .error e => .error e
  | .ok (left, p2) =>
  match read32 buf p2 with
  | .error e => .error e
  | .ok (bot, p3) =>
  match read32 buf p3 with
  | .error e => .error e
  | .ok (right, p4) =>
  match read16 buf p4 with
  | .error e => .error e
  | .ok (chCount, p5) =>
  match parseChannelDescs buf chCount p5 with
  | .error e => .error e
  | .ok (chs, p6) =>
  parseOneLayerRest buf top left bot right chs p6

/-- The layer-record loop: parse `count` consecutive layer records. -/
def parseLayerRecords (buf : List Nat) : Nat → Nat → Except Err (List RawLayer × Nat)
  | 0, pos => .ok ([], pos)
  | n + 1, pos =>
    match parseOneLayer buf pos with
    | .error e => .error e
    | .ok (l, p1) =>
      match parseLayerRecords buf n p1 with
      | .error e => .error e
      | .ok (ls, p2) => .ok (l :: ls, p2)

/-- A literal run: `len++ ; while (len--) data.push_back(read8(offset, e));`
reads `n` consecutive bytes through the checked cursor. -/
def readRun (buf : List Nat) : Nat → Nat → Except Err (List Nat × Nat)
  | 0, pos => .ok ([], pos)
  | n + 1, pos =>
    match read8 buf pos with
    | .error e => .error e
    | .ok (b, p1) =>
      match readRun buf n p1 with
      | .error e => .error e
      | .ok (bs, p2) => .ok (b :: bs, p2)

/-- The run-length decode loop (lines 209-222): while the accumulated data is
shorter than `area`, read a control byte `len`; `len < 0x80` is a literal run
of `len + 1` bytes, `len > 0x80` a repeat run of `(1 - len)` (as `uint8_t`,
i.e. `(257 - len) % 256`) copies of the next byte, and `len == 0x80` falls
through both branches, contributing nothing.  Every iteration advances the
checked cursor by at least one byte, so the loop runs at most
`buf.length + 1 - pos` times; the structural `fuel` parameter is consumed
once per iteration, and when it runs out the cursor provably stands past the
buffer end, where the iteration's first `read8` fails with `truncatedInput` —
the very value the fuel-exhausted branch returns (`rleLoopGo_fuel`). -/
def rleLoopGo (buf : List Nat) (area fuel : Nat) (acc : List Nat) (pos : Nat) :
    Except Err (List Nat × Nat) :=
  if acc.length < area then
    match fuel with
    | 0 => .error .truncatedInput
    | fuel' + 1 =>
      match read8 buf pos with
      | .error e => .error e
      | .ok (len, p1) =>
        if len < 128 then
          match readRun buf (len + 1) p1 with
          | .error e => .error e
          | .ok (bs, p2) => rleLoopGo buf area fuel' (acc ++ bs) p2
        else if 128 < len then
          match read8 buf p1 with
          | .error e => .error e
          | .ok (b, p2) => rleLoopGo buf area fuel' (acc ++ List.replicate ((257 - len) % 256) b) p2
        else rleLoopGo buf area fuel' acc p1
  else .ok (acc, pos)

/-- The run-length decode loop with its (always sufficient) iteration bound. -/
def rleLoop (buf : List Nat) (area : Nat) (acc : List Nat) (pos : Nat) :
    Except Err (List Nat × Nat) :=
  rleLoopGo buf area (buf.length + 1) acc pos

/-- Decode one channel's image data (lines 195-228): a 16-bit compression tag,
then raw copy (method 0, an *unchecked* `std::copy` of `width*height` bytes —
out-of-bounds input yields `Err.oobRead`), run-length (method 1, after an
*unchecked* jump-table skip of `2*height` bytes), or failure on any other tag.
`w` and `h` are the layer's bounding-box width and height as `uint32_t`. -/
def decodeChannel (buf : List Nat) (w h : Nat) (pos : Nat) :
    Except Err (List Nat × Nat) :=
  let area := (w * h) % U32
  match read16 buf pos with
  | .error e => .error e
  | .ok (comp, p1) =>
    if comp = 0 then
      if p1 + area ≤ buf.length then .ok ((buf.drop p1).take area, p1 + area)
      else .error .oobRead
    else if comp = 1 then
      rleLoop buf area [] (p1 + (2 * h) % U32)
    else .error (.unsupportedFormat "compression")

/-- Decode the channel image data of one layer's channel list in order. -/
def decodeLayerChannels (buf : List Nat) (w h : Nat) :
    List RawChannel → Nat → Except Err (List RawChannel × Nat)
  | [], pos => .ok ([], pos)
  | c :: cs, pos =>
    match decodeChannel buf w h pos with
    | .error e => .error e
    | .ok (d, p1) =>
      match decodeLayerChannels buf w h cs p1 with
      | .error e => .error e
      | .ok (cs', p2) => .ok ({ c with data := d } :: cs', p2)

/-- Decode the channel image data of every layer, in stored layer order;
each layer's bounding-box height and width are `uint32_t` differences. -/
def decodeAllChannels (buf : List Nat) :
    List RawLayer → Nat → Except Err (List RawLayer × Nat)
  | [], pos => .ok ([], pos)
  | l :: ls, pos =>
    let hgt := w32sub l.bot l.top
    let wdt := w32sub l.right l.left
    match decodeLayerChannels buf wdt hgt l.channels pos with
    | .error e => .error e
    | .ok (chs, p1) =>
      match decodeAllChannels buf ls p1 with
      | .error e => .error e
      | .ok (ls', p2) => .ok ({ l with channels := chs } :: ls', p2)

/-- The compositor's inner loop (lines 267-274): walk the decoded channel
bytes; for each byte at cursor `(x, y)`, OR `byte << shift` into
`pixels[x + y*width]` when `x < width && y < height` (all `uint32_t`
arithmetic), then advance `x`, wrapping to `left` and decrementing `y`
whenever `x` reaches `right`.  An index outside the pixel vector would be an
out-of-range `operator[]` write (UB), modeled as `Err.oobWrite`. -/
def compLoop (cw chh left right shift : Nat) :
    List Nat → Nat → Nat → List Nat → Except Err (List Nat)
  | [], _, _, pix => .ok pix
  | c :: d, x, y, pix =>
    let step : Except Err (List Nat) :=
      if x < cw ∧ y < chh then
        let idx := (x + (y * cw) % U32) % U32
        if idx < pix.length then
          .ok (pix.set idx ((pix.getD idx 0) ||| (c <<< shift)))
        else .error .oobWrite
      else .ok pix
    match step with
    | .error e => .error e
    | .ok pix' =>
      let x' := (x + 1) % U32
      if right ≤ x' then compLoop cw chh left right shift d left (w32dec y) pix'
      else compLoop cw chh left right shift d x' y pix'

/-- Composite one decoded channel into the pixel buffer, starting at
column `left` of the bounding box's bottom row (`y = bot - 1` as `uint32_t`). -/
def compositeChannel (cw chh left right bot shift : Nat) (data pix : List Nat) :
    Except Err (List Nat) :=
  compLoop cw chh left right shift data left (w32dec bot) pix

/-- Composite all channels of a raw layer: kinds 0-2 shift by `kind*8`,
kind -1 is the alpha slot (shift 24); any other kind is skipped with a
warning and contributes nothing. -/
def compositeAll (cw chh : Nat) (l : RawLayer) :
    List RawChannel → List Nat → Except Err (List Nat)
  | [], pix => .ok pix
  | c :: cs, pix =>
    match (if 0 ≤ c.kind ∧ c.kind ≤ 2 then some c.kind.toNat
           else if c.kind = -1 then some 3 else none) with
    | none => compositeAll cw chh l cs pix
    | some k =>
      match compositeChannel cw chh l.left l.right l.bot (k * 8) c.data pix with
      | .error e => .error e
      | .ok pix' => compositeAll cw chh l cs pix'

/-- The layer tree reconstruction and compositing loop (lines 234-276),
applied to the raw layer list already reversed into processing order.
A group layer named `"</Layer group>"` pops the location stack —
`location.pop_back()` with **no emptiness check** in the source, so the empty
case is `std::vector::pop_back` on an empty vector (UB), modeled as
`Err.ubPopEmpty`.  Any other group layer pushes its name.  A non-group layer
is emitted with path = location stack + own name and a canvas-sized
zero-initialized pixel buffer (`width*height` is a `uint32_t` product) that
the channels are composited into; the layer is pushed before compositing, so
on a compositing fault it remains in the output list. -/
def reconstructLoop (cw chh : Nat) (location : List (List Nat))
    (ls : List RawLayer) (st : PsdState) : Except Err Unit × PsdState :=
  match ls with
  | [] => (.ok (), st)
  | l :: rest =>
    if l.is_group then
      if l.name = closeSentinel then
        match location with
        | [] => (.error .ubPopEmpty, st)
        | _ :: _ => reconstructLoop cw chh location.dropLast rest st
      else reconstructLoop cw chh (location ++ [l.name]) rest st
    else
      let pix0 : List Nat := List.replicate ((cw * chh) % U32) 0
      let newPath := location ++ [l.name]
      match compositeAll cw chh l l.channels pix0 with
      | .error e =>
        (.error e, { st with layers := st.layers ++
          [{ path := newPath, width := cw, height := chh, pixels := pix0 }] })
      | .ok pix =>
        reconstructLoop cw chh location rest { st with layers := st.layers ++
          [{ path := newPath, width := cw, height := chh, pixels := pix }] }

/-- The file header, color-mode-data / image-resources skips, and the
layer-and-mask section prelude (lines 86-136), with the member assignments
`height = read32(...)` and `width = read32(...)` happening exactly where the
source performs them (so a later failure leaves them assigned).  Returns the
layer count (a negative `int16_t` count means a merged-alpha channel is
present; its absolute value is used) and the cursor position. -/
def psdHeader (buf : List Nat) (st0 : PsdState) : Except Err (Nat × Nat) × PsdState :=
  match read32 buf 0 with
  | .error e => (.error e, st0)
  | .ok (sig, p1) =>
  if sig ≠ 0x38425053 then (.error (.unsupportedFormat "signature"), st0) else
  match read16 buf p1 with
  | .error e => (.error e, st0)
  | .ok (ver, p2) =>
  if ver ≠ 1 then (.error (.unsupportedFormat "version"), st0) else
  match skipN buf 6 p2 with
  | .error e => (.error e, st0)
  | .ok p3 =>
  match read16 buf p3 with
  | .error e => (.error e, st0)
  | .ok (_channels, p4) =>
  match read32 buf p4 with
  | .error e => (.error e, st0)
  | .ok (hv, p5) =>
  let st1 : PsdState := { st0 with height := hv }
  match read32 buf p5 with
  | .error e => (.error e, st1)
  | .ok (wv, p6) =>
  let st2 : PsdState := { st1 with width := wv }
  match read16 buf p6 with
  | .error e => (.error e, st2)
  | .ok (depth, p7) =>
  if depth ≠ 8 then (.error (.unsupportedFormat "depth"), st2) else
  match read16 buf p7 with
  | .error e => (.error e, st2)
  | .ok (mode, p8) =>
  if mode ≠ 3 then (.error (.unsupportedFormat "colorMode"), st2) else
  match read32 buf p8 with
  | .error e => (.error e, st2)
  | .ok (colorLen, p9) =>
  match skipN buf colorLen p9 with
  | .error e => (.error e, st2)
  | .ok p10 =>
  match read32 buf p10 with
  | .error e => (.error e, st2)
  | .ok (resLen, p11) =>
  match skipN buf resLen p11 with
  | .error e => (.error e, st2)
  | .ok p12 =>
  match read32 buf p12 with
  | .error e => (.error e, st2)
  | .ok (_layerMaskSection, p13) =>
  match read32 buf p13 with
  | .error e => (.error e, st2)
  | .ok (_layersLength, p14) =>
  match read16 buf p14 with
  | .error e => (.error e, st2)
  | .ok (cntRaw, p15) =>
  let count := if cntRaw < 32768 then cntRaw else 65536 - cntRaw
  (.ok (count, p15), st2)

/-- The full decode `psd::load` (minus the out-of-scope file I/O): header and
section prelude, layer records, per-channel image data, then group-path
reconstruction and compositing over the raw layers in reverse storage order.
On failure the `psd` object keeps whatever members were already assigned. -/
def psdLoad (buf : List Nat) (st0 : PsdState) : Except Err Unit × PsdState :=
  match psdHeader buf st0 with
  | (.error e, st) => (.error e, st)
  | (.ok (count, pos), st) =>
    match parseLayerRecords buf count pos with
    | .error e => (.error e, st)
    | .ok (rls, p1) =>
      match decodeAllChannels buf rls p1 with
      | .error e => (.error e, st)
      | .ok (rls2, _p2) =>
        reconstructLoop st.width st.height [] rls2.reverse st

/-- A minimal well-formed PSD byte buffer: 1x1 RGB canvas, one non-group layer
named `"A"` with bounding box (0,0)-(1,1) and a single raw-compressed red
channel holding the byte `0x7F`. -/
def bufOneLayerRaw : List Nat :=
  [0x38, 0x42, 0x50, 0x53,
   0x00, 0x01,
   0, 0, 0, 0, 0, 0,
   0x00, 0x03,
   0, 0, 0, 1,
   0, 0, 0, 1,
   0x00, 0x08,
   0x00, 0x03,
   0, 0, 0, 0,
   0, 0, 0, 0,
   0, 0, 0, 0,
   0, 0, 0, 0,
   0x00, 0x01,
   0, 0, 0, 0,
   0, 0, 0, 0,
   0, 0, 0, 1,
   0, 0, 0, 1,
   0x00, 0x01,
   0x00, 0x00,
   0, 0, 0, 0,
   0x38, 0x42, 0x49, 0x4D,
   0x6E, 0x6F, 0x72, 0x6D,
   0xFF, 0x00, 0x00, 0x00,
   0, 0, 0, 12,
   0, 0, 0, 0,
   0, 0, 0, 0,
   1, 0x41, 0, 0,
   0x00, 0x00,
   0x7F]

/-- `bufOneLayerRaw` with its final byte (the raw channel's single data byte)
removed: the raw-channel copy starts exactly at the buffer end. -/
def bufTruncatedRaw : List Nat := bufOneLayerRaw.dropLast

/-- `bufOneLayerRaw` with the 4-byte length field of its single channel
descriptor (bytes 64..67, the `uint32_t length = read32(offset,e);` that the
code discards) overwritten with arbitrary junk. -/
def bufOneLayerRawAlt : List Nat :=
  (bufOneLayerRaw.take 64) ++ [0xDE, 0xAD, 0xBE, 0xEF] ++ (bufOneLayerRaw.drop 68)

/-- A PSD buffer whose single layer is group-flagged (`flags = 0x18`) and named
`"</Layer group>"`: a group-close sentinel processed with an empty GroupStack. -/
def bufCloseOnly : List Nat :=
  [0x38, 0x42, 0x50, 0x53,
   0x00, 0x01,
   0, 0, 0, 0, 0, 0,
   0x00, 0x03,
   0, 0, 0, 1,
   0, 0, 0, 1,
   0x00, 0x08,
   0x00, 0x03,
   0, 0, 0, 0,
   0, 0, 0, 0,
   0, 0, 0, 0,
   0, 0, 0, 0,
   0x00, 0x01,
   0, 0, 0, 0,
   0, 0, 0, 0,
   0, 0, 0, 0,
   0, 0, 0, 0,
   0x00, 0x00,
   0x38, 0x42, 0x49, 0x4D,
   0x6E, 0x6F, 0x72, 0x6D,
   0xFF, 0x00, 0x18, 0x00,
   0, 0, 0, 24,
   0, 0, 0, 0,
   0, 0, 0, 0,
   14, 0x3C, 0x2F, 0x4C, 0x61, 0x79, 0x65, 0x72, 0x20,
   0x67, 0x72, 0x6F, 0x75, 0x70, 0x3E, 0x00]

/-- A PSD buffer with a 2x2 canvas and one non-group layer named `"A"` whose
bounding box is the single pixel (x=0, y=1) — `top=1, left=0, bot=2, right=1`,
area 1 — and one run-length red channel whose stream is the literal run
`0x01, 5, 6`: two bytes for a one-byte area. -/
def bufRleOvershoot : List Nat :=
  [0x38, 0x42, 0x50, 0x53,
   0x00, 0x01,
   0, 0, 0, 0, 0, 0,
   0x00, 0x03,
   0, 0, 0, 2,
   0, 0, 0, 2,
   0x00, 0x08,
   0x00, 0x03,
   0, 0, 0, 0,
   0, 0, 0, 0,
   0, 0, 0, 0,
   0, 0, 0, 0,
   0x00, 0x01,
   0, 0, 0, 1,
   0, 0, 0, 0,
   0, 0, 0, 2,
   0, 0, 0, 1,
   0x00, 0x01,
   0x00, 0x00,
   0, 0, 0, 0,
   0x38, 0x42, 0x49, 0x4D,
   0x6E, 0x6F, 0x72, 0x6D,
   0xFF, 0x00, 0x00, 0x00,
   0, 0, 0, 12,
   0, 0, 0, 0,
   0, 0, 0, 0,
   1, 0x41, 0, 0,
   0x00, 0x01,
   0x00, 0x00,
   0x01, 5, 6]

/-- A PSD buffer whose fixed header declares bit depth 16 (the depth check
fails *after* the canvas height and width have been assigned). -/
def bufBadDepth : List Nat :=
  [0x38, 0x42, 0x50, 0x53,
   0x00, 0x01,
   0, 0, 0, 0, 0, 0,
   0x00, 0x03,
   0, 0, 0, 1,
   0, 0, 0, 1,
   0x00, 0x10]

mutual
/-- A well-nested forest of group markers and plain layers, used to state the
layer-tree reconstruction property: a `node` carries the group-open marker
layer `o`, the group-close marker layer `c` and the children between them, in
reverse storage order (the order `psd::load` processes raw layers). -/
inductive GTree where
  | leaf (l : RawLayer)
  | node (o c : RawLayer) (children : GForest)
inductive GForest where
  | nil
  | cons (t : GTree) (f : GForest)
end

mutual
/-- Well-formedness of the marker nesting: leaves are non-group layers, an
open marker is a group layer not named by the closing sentinel, and a close
marker is a group layer named exactly by the closing sentinel. -/
def wfT : GTree → Bool
  | .leaf l => !l.is_group
  | .node o c f =>
    o.is_group && !(o.name == closeSentinel) && c.is_group && (c.name == closeSentinel) && wfF f
def wfF : GForest → Bool
  | .nil => true
  | .cons t f => wfT t && wfF f
end

mutual
/-- Flatten a nesting into the raw-layer list as it appears in reverse
storage order: open marker, then the children's flattening, then the close
marker. -/
def flattenT : GTree → List RawLayer
  | .leaf l => [l]
  | .node o c f => o :: (flattenF f ++ [c])
def flattenF : GForest → List RawLayer
  | .nil => []
  | .cons t f => flattenT t ++ flattenF f
end

mutual
/-- The expected output paths of a nesting: each leaf contributes the names
of all enclosing groups, outermost first, followed by its own name; markers
contribute nothing. -/
def pathsT (loc : List (List Nat)) : GTree → List (List (List Nat))
  | .leaf l => [loc ++ [l.name]]
  | .node o _ f => pathsF (loc ++ [o.name]) f
def pathsF (loc : List (List Nat)) : GForest → List (List (List Nat))
  | .nil => []
  | .cons t f => pathsT loc t ++ pathsF loc f
end

/-- The group/leaf scenario from the spec: processing order is group-open
`"Folder"`, then a plain layer `"B"`, then the group-close sentinel. -/
def gforestFolderB : GForest :=
  .cons (.node { top := 0, left := 0, bot := 0, right := 0,
                 name := [70, 111, 108, 100, 101, 114], is_group := true, channels := [] }
               { top := 0, left := 0, bot := 0, right := 0,
                 name := closeSentinel, is_group := true, channels := [] }
               (.cons (.leaf { top := 0, left := 0, bot := 0, right := 0,
                               name := [66], is_group := false, channels := [] }) .nil)) .nil

/-- The OR-mask the compositor walk contributes to pixel index `q`: the walk
visits the channel's data bytes with the cursor advancing exactly like
`compLoop` (in the non-wrapping regime the characterization theorem works
in), and a byte is ORed, shifted by the channel slot, exactly when its
coordinate `(x, y)` lies in `[0, cw) × [0, chh)` and addresses
`q = x + y * cw`. -/
def orMask (cw chh left right shift : Nat) : List Nat → Nat → Nat → Nat → Nat
  | [], _, _, _ => 0
  | c :: d, x, y, q =>
    (if x < cw ∧ y < chh ∧ x + y * cw = q then c <<< shift else 0) |||
    (if right ≤ x + 1 then orMask cw chh left right shift d left (y - 1) q
     else orMask cw chh left right shift d (x + 1) y q)

/-- Two buffers of the same length that agree at every index outside the
4-byte window `[m, m + 4)` (the footprint of one 32-bit per-channel length
field in a layer record's channel descriptor list). -/
def sameOutside (m : Nat) (b1 b2 : List Nat) : Prop :=
  b1.length = b2.length ∧
  ∀ j, j < b1.length → (j < m ∨ m + 4 ≤ j) → b1.getD j 0 = b2.getD j 0

instance (m : Nat) (b1 b2 : List Nat) : Decidable (sameOutside m b1 b2) := by
  unfold sameOutside
  infer_instance

/-- Any fuel of at least `(4 - len % 4) % 4` (the exact number of iterations
of the padding loop) yields the same result. -/
theorem readPaddingGo_fuel (buf : List Nat) :
    ∀ f1 f2 len pos, (4 - len % 4) % 4 ≤ f1 → (4 - len % 4) % 4 ≤ f2 →
      readPaddingGo buf f1 len pos = readPaddingGo buf f2 len pos := by
  intro f1
  induction f1 with
  | zero =>
    intro f2 len pos h1 h2
    have hz : len % 4 = 0 := by omega
    rw [readPaddingGo.eq_def, readPaddingGo.eq_def, if_pos hz, if_pos hz]
  | succ f1' ih =>
    intro f2 len pos h1 h2
    by_cases hz : len % 4 = 0
    · rw [readPaddingGo.eq_def, readPaddingGo.eq_def, if_pos hz, if_pos hz]
    · have hf2 : ∃ f2', f2 = f2' + 1 := by
        refine ⟨f2 - 1, ?_⟩
        omega
      obtain ⟨f2', rfl⟩ := hf2
      rw [readPaddingGo.eq_def, readPaddingGo.eq_def, if_neg hz, if_neg hz]
      cases h8 : read8 buf pos with
      | error e => rfl
      | ok v =>
        obtain ⟨b, p1⟩ := v
        exact ih f2' (len + 1) p1 (by omega) (by omega)

/-- Whether `read8` succeeded forces the position forward by one. -/
theorem read8_ok (buf : List Nat) (pos b q : Nat) (h : read8 buf pos = .ok (b, q)) :
    q = pos + 1 ∧ pos + 1 ≤ buf.length ∧ b = buf.getD pos 0 % 256 := by
  simp only [read8] at h
  split at h
  · cases h
  · cases h
    refine ⟨rfl, by omega, rfl⟩

/-- Position monotonicity for `readRun` (needed for the RLE loop measure). -/
theorem readRun_pos_le (buf : List Nat) :
    ∀ n pos bs q, readRun buf n pos = .ok (bs, q) → pos ≤ q := by
  intro n
  induction n with
  | zero =>
    intro pos bs q h
    simp only [readRun] at h
    cases h
    exact le_refl _
  | succ m ih =>
    intro pos bs q h
    simp only [readRun] at h
    split at h
    · cases h
    · rename_i b p1 h8
      split at h
      · cases h
      · rename_i bs2 p2 hr
        cases h
        have h1 := read8_ok buf pos b p1 h8
        exact le_trans (by omega) (ih p1 bs2 q hr)

/-- Any two fuels that keep `fuel + pos` beyond the buffer length give the
same result: a loop iteration at `pos` past the buffer end fails its first
`read8` exactly as the fuel-exhausted branch does. -/
theorem rleLoopGo_fuel (buf : List Nat) (area : Nat) :
    ∀ f1 f2 acc pos, buf.length + 1 ≤ f1 + pos → buf.length + 1 ≤ f2 + pos →
      rleLoopGo buf area f1 acc pos = rleLoopGo buf area f2 acc pos := by
  intro f1
  induction f1 with
  | zero =>
    intro f2 acc pos h1 h2
    by_cases hlt : acc.length < area
    · rw [rleLoopGo.eq_def, rleLoopGo.eq_def, if_pos hlt, if_pos hlt]
      match f2 with
      | 0 => rfl
      | f2' + 1 =>
        have h8 : read8 buf pos = .error .truncatedInput := by
          rw [read8, if_pos (by omega)]
        rw [h8]
    · rw [rleLoopGo.eq_def, rleLoopGo.eq_def, if_neg hlt, if_neg hlt]
  | succ f1' ih =>
    intro f2 acc pos h1 h2
    by_cases hlt : acc.length < area
    · match f2 with
      | 0 =>
        rw [rleLoopGo.eq_def, rleLoopGo.eq_def, if_pos hlt, if_pos hlt]
        have h8 : read8 buf pos = .error .truncatedInput := by
          rw [read8, if_pos (by omega)]
        rw [h8]
      | f2' + 1 =>
        rw [rleLoopGo.eq_def, rleLoopGo.eq_def, if_pos hlt, if_pos hlt]
        cases h8 : read8 buf pos with
        | error e => rfl
        | ok v =>
          obtain ⟨len, p1⟩ := v
          dsimp only
          have hp1 := read8_ok buf pos len p1 h8
          by_cases hsm : len < 128
          · rw [if_pos hsm, if_pos hsm]
            cases hr : readRun buf (len + 1) p1 with
            | error e => rfl
            | ok w =>
              obtain ⟨bs, p2⟩ := w
              dsimp only
              have hp2 := readRun_pos_le buf (len + 1) p1 bs p2 hr
              exact ih f2' (acc ++ bs) p2 (by omega) (by omega)
          · rw [if_neg hsm, if_neg hsm]
            by_cases hbig : 128 < len
            · rw [if_pos hbig, if_pos hbig]
              cases h9 : read8 buf p1 with
              | error e => rfl
              | ok w =>
                obtain ⟨b, p2⟩ := w
                dsimp only
                have hp2 := read8_ok buf p1 b p2 h9
                exact ih f2' (acc ++ List.replicate ((257 - len) % 256) b) p2
                  (by omega) (by omega)
            · rw [if_neg hbig, if_neg hbig]
              exact ih f2' acc p1 (by omega) (by omega)
    · rw [rleLoopGo.eq_def, rleLoopGo.eq_def, if_neg hlt, if_neg hlt]

/-- `readRun` returns exactly as many bytes as requested. -/
theorem readRun_length (buf : List Nat) :
    ∀ n pos bs q, readRun buf n pos = .ok (bs, q) → bs.length = n := by
  intro n
  induction n with
  | zero =>
    intro pos bs q h
    simp only [readRun] at h
    cases h
    rfl
  | succ m ih =>
    intro pos bs q h
    simp only [readRun] at h
    split at h
    · cases h
    · rename_i b p1 h8
      split at h
      · cases h
      · rename_i bs2 p2 hr
        cases h
        simp [ih p1 bs2 q hr]

/-- Unfolding: the loop stops as soon as the accumulated data reaches `area`. -/
theorem rleLoop_eq_stop (buf : List Nat) (area : Nat) (acc : List Nat) (pos : Nat)
    (h : ¬ acc.length < area) : rleLoop buf area acc pos = .ok (acc, pos) := by
  show rleLoopGo buf area (buf.length + 1) acc pos = .ok (acc, pos)
  rw [rleLoopGo, if_neg h]

/-- Unfolding: a failing control-byte read fails the loop. -/
theorem rleLoop_eq_err (buf : List Nat) (area : Nat) (acc : List Nat) (pos : Nat) (e : Err)
    (hlt : acc.length < area) (h8 : read8 buf pos = .error e) :
    rleLoop buf area acc pos = .error e := by
  show rleLoopGo buf area (buf.length + 1) acc pos = .error e
  rw [rleLoopGo.eq_def]
  simp only [if_pos hlt, h8]

/-- Unfolding: a control byte `< 0x80` whose literal run reads successfully
appends the run whole and continues behind it. -/
theorem rleLoop_eq_lit (buf : List Nat) (area : Nat) (acc : List Nat)
    (pos len p1 : Nat) (bs : List Nat) (p2 : Nat)
    (hlt : acc.length < area) (h8 : read8 buf pos = .ok (len, p1)) (hsm : len < 128)
    (hr : readRun buf (len + 1) p1 = .ok (bs, p2)) :
    rleLoop buf area acc pos = rleLoop buf area (acc ++ bs) p2 := by
  have hp1 := read8_ok buf pos len p1 h8
  have hp2 := readRun_pos_le buf (len + 1) p1 bs p2 hr
  show rleLoopGo buf area (buf.length + 1) acc pos =
    rleLoopGo buf area (buf.length + 1) (acc ++ bs) p2
  conv_lhs => rw [rleLoopGo.eq_def]
  simp only [if_pos hlt, h8, if_pos hsm, hr]
  exact rleLoopGo_fuel buf area buf.length (buf.length + 1) (acc ++ bs) p2
    (by omega) (by omega)

/-- Unfolding: a control byte `< 0x80` whose literal run hits the buffer end
fails the loop. -/
theorem rleLoop_eq_lit_err (buf : List Nat) (area : Nat) (acc : List Nat)
    (pos len p1 : Nat) (e : Err)
    (hlt : acc.length < area) (h8 : read8 buf pos = .ok (len, p1)) (hsm : len < 128)
    (hr : readRun buf (len + 1) p1 = .error e) :
    rleLoop buf area acc pos = .error e := by
  show rleLoopGo buf area (buf.length + 1) acc pos = .error e
  rw [rleLoopGo.eq_def]
  simp only [if_pos hlt, h8, if_pos hsm, hr]

/-- Unfolding: a control byte `> 0x80` reads one byte and appends
`(257 - len) % 256` copies of it (the `uint8_t` value of `1 - len`). -/
theorem rleLoop_eq_rep (buf : List Nat) (area : Nat) (acc : List Nat)
    (pos len p1 b p2 : Nat)
    (hlt : acc.length < area) (h8 : read8 buf pos = .ok (len, p1)) (hbig : 128 < len)
    (h9 : read8 buf p1 = .ok (b, p2)) :
    rleLoop buf area acc pos =
      rleLoop buf area (acc ++ List.replicate ((257 - len) % 256) b) p2 := by
  have hp1 := read8_ok buf pos len p1 h8
  have hp2 := read8_ok buf p1 b p2 h9
  have hns : ¬ len < 128 := by omega
  show rleLoopGo buf area (buf.length + 1) acc pos =
    rleLoopGo buf area (buf.length + 1) (acc ++ List.replicate ((257 - len) % 256) b) p2
  conv_lhs => rw [rleLoopGo.eq_def]
  simp only [if_pos hlt, h8, if_neg hns, if_pos hbig, h9]
  exact rleLoopGo_fuel buf area buf.length (buf.length + 1)
    (acc ++ List.replicate ((257 - len) % 256) b) p2 (by omega) (by omega)

/-- Unfolding: a control byte `> 0x80` with no byte left to repeat fails. -/
theorem rleLoop_eq_rep_err (buf : List Nat) (area : Nat) (acc : List Nat)
    (pos len p1 : Nat) (e : Err)
    (hlt : acc.length < area) (h8 : read8 buf pos = .ok (len, p1)) (hbig : 128 < len)
    (h9 : read8 buf p1 = .error e) :
    rleLoop buf area acc pos = .error e := by
  have hns : ¬ len < 128 := by omega
  show rleLoopGo buf area (buf.length + 1) acc pos = .error e
  rw [rleLoopGo.eq_def]
  simp only [if_pos hlt, h8, if_neg hns, if_pos hbig, h9]

/-- Unfolding: a control byte equal to `0x80` contributes nothing and the
loop continues at the next byte. -/
theorem rleLoop_eq_noop (buf : List Nat) (area : Nat) (acc : List Nat) (pos p1 : Nat)
    (hlt : acc.length < area) (h8 : read8 buf pos = .ok (128, p1)) :
    rleLoop buf area acc pos = rleLoop buf area acc p1 := by
  have hp1 := read8_ok buf pos 128 p1 h8
  have hns : ¬ (128 : Nat) < 128 := by omega
  show rleLoopGo buf area (buf.length + 1) acc pos = rleLoopGo buf area (buf.length + 1) acc p1
  conv_lhs => rw [rleLoopGo.eq_def]
  simp only [if_pos hlt, h8, if_neg hns]
  exact rleLoopGo_fuel buf area buf.length (buf.length + 1) acc p1 (by omega) (by omega)

/-- Length bounds for the run-length decode loop: once the accumulated length
reaches `area` the loop returns it untouched, and starting below `area` the
final length lands in `[area, area + 127]` — a run that crosses the `area`
boundary is appended whole, but each run adds at most 128 bytes. -/
theorem rleLoop_bounds (buf : List Nat) (area : Nat) :
    ∀ acc pos d q, rleLoop buf area acc pos = .ok (d, q) →
      (area ≤ acc.length → d = acc) ∧
      (acc.length < area → area ≤ d.length ∧ d.length ≤ area + 127) := by
  suffices main : ∀ n acc pos, buf.length - pos ≤ n → ∀ d q,
      rleLoop buf area acc pos = .ok (d, q) →
      (area ≤ acc.length → d = acc) ∧
      (acc.length < area → area ≤ d.length ∧ d.length ≤ area + 127) by
    intro acc pos
    exact main (buf.length - pos) acc pos le_rfl
  intro n
  induction n with
  | zero =>
    intro acc pos hn d q h
    by_cases hlt : acc.length < area
    · have h8 : read8 buf pos = .error .truncatedInput := by
        rw [read8, if_pos (by omega)]
      rw [rleLoop_eq_err buf area acc pos _ hlt h8] at h
      cases h
    · rw [rleLoop_eq_stop buf area acc pos hlt] at h
      cases h
      exact ⟨fun _ => rfl, fun hl => absurd hl hlt⟩
  | succ m ih =>
    intro acc pos hn d q h
    by_cases hlt : acc.length < area
    · cases h8 : read8 buf pos with
      | error e =>
        rw [rleLoop_eq_err buf area acc pos e hlt h8] at h
        cases h
      | ok v =>
        obtain ⟨len, p1⟩ := v
        have hp1 := read8_ok buf pos len p1 h8
        by_cases hsm : len < 128
        · cases hr : readRun buf (len + 1) p1 with
          | error e =>
            rw [rleLoop_eq_lit_err buf area acc pos len p1 e hlt h8 hsm hr] at h
            cases h
          | ok w =>
            obtain ⟨bs, p2⟩ := w
            have hp2 := readRun_pos_le buf (len + 1) p1 bs p2 hr
            have hbl := readRun_length buf (len + 1) p1 bs p2 hr
            rw [rleLoop_eq_lit buf area acc pos len p1 bs p2 hlt h8 hsm hr] at h
            have hrec := ih (acc ++ bs) p2 (by omega) d q h
            have happ : (acc ++ bs).length = acc.length + bs.length :=
              List.length_append acc bs
            constructor
            · intro habs
              omega
            · intro _
              rcases Nat.lt_or_ge (acc ++ bs).length area with hc | hc
              · have := hrec.2 hc
                omega
              · have hda := hrec.1 hc
                subst hda
                omega
        · by_cases hbig : 128 < len
          · cases h9 : read8 buf p1 with
            | error e =>
              rw [rleLoop_eq_rep_err buf area acc pos len p1 e hlt h8 hbig h9] at h
              cases h
            | ok w =>
              obtain ⟨b, p2⟩ := w
              have hp2 := read8_ok buf p1 b p2 h9
              rw [rleLoop_eq_rep buf area acc pos len p1 b p2 hlt h8 hbig h9] at h
              have hrec := ih (acc ++ List.replicate ((257 - len) % 256) b) p2
                (by omega) d q h
              have hlen256 : len < 256 := by omega
              have happ : (acc ++ List.replicate ((257 - len) % 256) b).length =
                  acc.length + (257 - len) % 256 := by
                simp
              have hrep : (257 - len) % 256 ≤ 128 := by omega
              constructor
              · intro habs
                omega
              · intro _
                rcases Nat.lt_or_ge
                  (acc ++ List.replicate ((257 - len) % 256) b).length area with hc | hc
                · have := hrec.2 hc
                  omega
                · have hda := hrec.1 hc
                  subst hda
                  omega
          · have hlen : len = 128 := by omega
            subst hlen
            rw [rleLoop_eq_noop buf area acc pos p1 hlt h8] at h
            exact ih acc p1 (by omega) d q h
    · rw [rleLoop_eq_stop buf area acc pos hlt] at h
      cases h
      exact ⟨fun _ => rfl, fun hl => absurd hl hlt⟩

/-- C1 (counterexample): a run-length channel for a bounding box of area
`1*1 = 1` whose stream is the literal run `0x01, 5, 6` decodes to *two* data
bytes — the decode loop checks the length only between runs and appends a
boundary-crossing run whole, so the channel data exceeds the bounding-box
area, refuting "never more, never less". -/
theorem C1_counterexample :
    decodeChannel [0, 1, 9, 9, 1, 5, 6] 1 1 0 = .ok ([5, 6], 7) ∧
    ([5, 6] : List Nat).length ≠ 1 * 1 := by
  constructor
  · rfl
  · decide

/-- C1 (amended): once a channel decodes successfully, its data length is at
least the bounding-box area and at most the area plus 127 (the loop stops
reading control bytes as soon as the area is reached, but a literal or repeat
run crossing the boundary is appended whole and adds at most 128 bytes); a
raw (method 0) channel always yields exactly the area. -/
theorem C1_channel_length_bounds (buf : List Nat) (w h pos : Nat) (d : List Nat) (q : Nat)
    (hok : decodeChannel buf w h pos = .ok (d, q)) :
    ((w * h) % U32 ≤ d.length ∧ d.length ≤ (w * h) % U32 + 127) ∧
    (∀ p1, read16 buf pos = .ok (0, p1) → d.length = (w * h) % U32) := by
  simp only [decodeChannel] at hok
  split at hok
  · cases hok
  · rename_i comp p1 heq
    split at hok
    · rename_i hc0
      split at hok
      · rename_i hfit
        cases hok
        refine ⟨⟨?_, ?_⟩, fun p1' _ => ?_⟩
        · simp only [List.length_take, List.length_drop]
          omega
        · simp only [List.length_take, List.length_drop]
          omega
        · simp only [List.length_take, List.length_drop]
          omega
      · cases hok
    · rename_i hc0
      split at hok
      · have hb := rleLoop_bounds buf ((w * h) % U32) [] (p1 + (2 * h) % U32) d q hok
        constructor
        · rcases Nat.eq_zero_or_pos ((w * h) % U32) with hz | hp
          · have hda := hb.1 (by omega)
            subst hda
            simp [hz]
          · exact hb.2 (by simpa using hp)
        · intro p1' h16
          rw [heq] at h16
          cases h16
          exact absurd rfl hc0
      · cases hok

/-- C1 (witness for the amended theorem): a raw one-byte channel. -/
theorem C1_channel_length_bounds_witness :
    ((1 * 1) % U32 ≤ ([0x7F] : List Nat).length ∧
      ([0x7F] : List Nat).length ≤ (1 * 1) % U32 + 127) ∧
    (∀ p1, read16 [0, 0, 0x7F] 0 = .ok (0, p1) →
      ([0x7F] : List Nat).length = (1 * 1) % U32) :=
  C1_channel_length_bounds [0, 0, 0x7F] 1 1 0 [0x7F] 3 (by rfl)

/-- C2: dropping the final data byte of a minimal valid one-layer PSD makes
the raw-channel `std::copy` start exactly at the buffer end with one byte
still to copy; the source performs the copy with *no* bounds check, so the
decode ends in an out-of-bounds read (`Err.oobRead` in this model), not in
the checked-cursor `TruncatedInput` failure the claim requires. -/
theorem C2_unchecked_copy_reads_oob :
    psdLoad bufTruncatedRaw ⟨0, 0, []⟩ = (.error .oobRead, ⟨1, 1, []⟩) := by
  rfl

/-- C4: a PSD whose only layer is a group-flagged layer named
`"</Layer group>"` reaches `location.pop_back()` with the GroupStack empty;
the source has no emptiness check and no `InvalidGroupStructure` failure —
it calls `std::vector::pop_back` on an empty vector (undefined behavior,
`Err.ubPopEmpty` in this model). -/
theorem C4_pop_on_empty_stack_is_ub :
    psdLoad bufCloseOnly ⟨0, 0, []⟩ = (.error .ubPopEmpty, ⟨1, 1, []⟩) := by
  rfl

/-- C6: a control byte equal to `0x80` falls through both the `len < 0x80`
and `len > 0x80` branches: it contributes no bytes and the loop simply
continues with the next control byte. -/
theorem C6_control_0x80_noop (buf : List Nat) (area : Nat) (acc : List Nat) (pos : Nat)
    (hacc : acc.length < area) (hpos : pos + 1 ≤ buf.length)
    (hb : buf.getD pos 0 % 256 = 128) :
    rleLoop buf area acc pos = rleLoop buf area acc (pos + 1) := by
  have h8 : read8 buf pos = .ok (128, pos + 1) := by
    simp only [read8, hb]
    rw [if_neg (by omega)]
  exact rleLoop_eq_noop buf area acc pos (pos + 1) hacc h8

/-- C6 (witness): control byte `0x80` at position 0. -/
theorem C6_control_0x80_noop_witness :
    rleLoop [128, 0, 127] 1 [] 0 = rleLoop [128, 0, 127] 1 [] (0 + 1) :=
  C6_control_0x80_noop [128, 0, 127] 1 [] 0 (by decide) (by decide) (by decide)

/-- C7: for a control byte `len` with `0x80 < len ≤ 0xFF` the decoder reads
the single following byte and appends exactly `257 - len` copies of it —
the repeat count `1 - len` computed in unsigned 8-bit arithmetic. -/
theorem C7_repeat_run_count (buf : List Nat) (area : Nat) (acc : List Nat)
    (pos len b : Nat) (hacc : acc.length < area) (hpos : pos + 2 ≤ buf.length)
    (hlen : buf.getD pos 0 % 256 = len) (hbig : 128 < len)
    (hb : buf.getD (pos + 1) 0 % 256 = b) :
    rleLoop buf area acc pos =
      rleLoop buf area (acc ++ List.replicate (257 - len) b) (pos + 2) := by
  have hlt256 : len < 256 := by
    rw [← hlen]
    exact Nat.mod_lt _ (by norm_num)
  have h8 : read8 buf pos = .ok (len, pos + 1) := by
    simp only [read8, hlen]
    rw [if_neg (by omega)]
  have h9 : read8 buf (pos + 1) = .ok (b, pos + 2) := by
    simp only [read8, hb]
    rw [if_neg (by omega)]
  have hstep := rleLoop_eq_rep buf area acc pos len (pos + 1) b (pos + 2) hacc h8 hbig h9
  rwa [Nat.mod_eq_of_lt (by omega : 257 - len < 256)] at hstep

/-- C7 (witness): control byte `0x81 = 129` repeats the byte 7 exactly
`257 - 129 = 128` times. -/
theorem C7_repeat_run_count_witness :
    rleLoop [129, 7] 1 [] 0 = rleLoop [129, 7] 1 ([] ++ List.replicate (257 - 129) 7) (0 + 2) :=
  C7_repeat_run_count [129, 7] 1 [] 0 129 7 (by decide) (by decide) (by decide) (by decide)
    (by decide)

/-- C8: a compression tag that is neither 0 (raw) nor 1 (run-length) makes
the channel decoder fail with `UnsupportedFormat` naming the compression
method field; since every later step is sequenced behind this result, no
further data of this channel or of any later channel is decoded. -/
theorem C8_unsupported_compression (buf : List Nat) (w h pos comp p1 : Nat)
    (hc : read16 buf pos = .ok (comp, p1)) (h0 : comp ≠ 0) (h1 : comp ≠ 1) :
    decodeChannel buf w h pos = .error (.unsupportedFormat "compression") := by
  simp only [decodeChannel, hc]
  rw [if_neg h0, if_neg h1]

/-- C8 (witness): compression tag 2. -/
theorem C8_unsupported_compression_witness :
    decodeChannel [0, 2] 1 1 0 = .error (.unsupportedFormat "compression") :=
  C8_unsupported_compression [0, 2] 1 1 0 2 2 (by rfl) (by decide) (by decide)

/-- C9 (counterexample): a buffer failing the bit-depth check fails *after*
the source has already assigned the `height` and `width` members, so the
caller observes document state produced by the aborted decode — the final
`psd` object differs from the initial one. -/
theorem C9_counterexample :
    psdLoad bufBadDepth ⟨0, 0, []⟩ = (.error (.unsupportedFormat "depth"), ⟨1, 1, []⟩) ∧
    (⟨1, 1, []⟩ : PsdState) ≠ (⟨0, 0, []⟩ : PsdState) := by
  constructor
  · rfl
  · decide

/-- C9 (amended): a fatal failure yields a single typed failure and no
Document value, but the members assigned before the failure point remain
observable: for *any* initial object state, decoding the bad-depth buffer
returns the typed failure together with `height` and `width` already set to
the header values (and nothing else changed). -/
theorem C9_partial_state_on_failure (st0 : PsdState) :
    psdLoad bufBadDepth st0 =
      (.error (.unsupportedFormat "depth"), { st0 with height := 1, width := 1 }) := by
  rfl

/-- Inside the canvas the compositor's write always hits the pixel buffer:
when the canvas area does not wrap `uint32_t` and the buffer is canvas-sized,
the walk never faults and preserves the buffer's length. -/
theorem compLoop_ok (cw chh left right shift : Nat) (hc : cw * chh < U32) :
    ∀ d x y pix, pix.length = cw * chh →
      ∃ pix', compLoop cw chh left right shift d x y pix = .ok pix' ∧
        pix'.length = cw * chh := by
  intro d
  induction d with
  | nil =>
    intro x y pix hl
    exact ⟨pix, rfl, hl⟩
  | cons c d ih =>
    intro x y pix hl
    have hstep : ∃ pix1, (if x < cw ∧ y < chh then
        (if (x + (y * cw) % U32) % U32 < pix.length then
          .ok (pix.set ((x + (y * cw) % U32) % U32)
            ((pix.getD ((x + (y * cw) % U32) % U32) 0) ||| (c <<< shift)))
        else .error .oobWrite)
      else (.ok pix : Except Err (List Nat))) = .ok pix1 ∧ pix1.length = cw * chh := by
      by_cases hxy : x < cw ∧ y < chh
      · obtain ⟨hx, hy⟩ := hxy
        have key : x + y * cw < cw * chh := by
          have h2 : (y + 1) * cw ≤ chh * cw := Nat.mul_le_mul_right cw hy
          have h3 : y * cw + cw = (y + 1) * cw := (Nat.succ_mul y cw).symm
          have h4 : chh * cw = cw * chh := Nat.mul_comm _ _
          omega
        have hmod1 : (y * cw) % U32 = y * cw := Nat.mod_eq_of_lt (by omega)
        have hidx : (x + (y * cw) % U32) % U32 = x + y * cw := by
          rw [hmod1]
          exact Nat.mod_eq_of_lt (by omega)
        rw [if_pos ⟨hx, hy⟩, hidx, if_pos (by omega : x + y * cw < pix.length)]
        refine ⟨_, rfl, ?_⟩
        rw [List.length_set]
        exact hl
      · rw [if_neg hxy]
        exact ⟨pix, rfl, hl⟩
    obtain ⟨pix1, hs, hl1⟩ := hstep
    simp only [compLoop, hs]
    by_cases hrr : right ≤ (x + 1) % U32
    · rw [if_pos hrr]
      exact ih left (w32dec y) pix1 hl1
    · rw [if_neg hrr]
      exact ih ((x + 1) % U32) y pix1 hl1

/-- Compositing every channel of a layer into a canvas-sized buffer succeeds
(non-wrapping canvas area) and keeps the buffer canvas-sized. -/
theorem compositeAll_ok (cw chh : Nat) (l : RawLayer) (hc : cw * chh < U32) :
    ∀ cs pix, pix.length = cw * chh →
      ∃ pix', compositeAll cw chh l cs pix = .ok pix' ∧ pix'.length = cw * chh := by
  intro cs
  induction cs with
  | nil =>
    intro pix hl
    exact ⟨pix, rfl, hl⟩
  | cons c cs ih =>
    intro pix hl
    simp only [compositeAll]
    cases hk : (if 0 ≤ c.kind ∧ c.kind ≤ 2 then some c.kind.toNat
           else if c.kind = -1 then some 3 else none) with
    | none =>
      exact ih pix hl
    | some k =>
      dsimp only
      obtain ⟨pix1, hcc, hl1⟩ :=
        compLoop_ok cw chh l.left l.right (k * 8) hc c.data l.left (w32dec l.bot) pix hl
      have hcc' : compositeChannel cw chh l.left l.right l.bot (k * 8) c.data pix = .ok pix1 :=
        hcc
      rw [hcc']
      exact ih pix1 hl1

/-- Unfolding: the reconstruction loop on an empty list returns the state. -/
theorem reconstructLoop_nil (cw chh : Nat) (loc : List (List Nat)) (st : PsdState) :
    reconstructLoop cw chh loc [] st = (.ok (), st) := rfl

/-- Unfolding: a group layer not named by the sentinel pushes its name. -/
theorem reconstructLoop_push (cw chh : Nat) (l : RawLayer) (rest : List RawLayer)
    (loc : List (List Nat)) (st : PsdState) (hg : l.is_group = true)
    (hn : ¬ l.name = closeSentinel) :
    reconstructLoop cw chh loc (l :: rest) st =
      reconstructLoop cw chh (loc ++ [l.name]) rest st := by
  simp [reconstructLoop, hg, hn]

/-- Unfolding: a sentinel-named group layer pops the last pushed segment. -/
theorem reconstructLoop_pop (cw chh : Nat) (l : RawLayer) (rest : List RawLayer)
    (loc : List (List Nat)) (x : List Nat) (st : PsdState)
    (hg : l.is_group = true) (hn : l.name = closeSentinel) :
    reconstructLoop cw chh (loc ++ [x]) (l :: rest) st =
      reconstructLoop cw chh loc rest st := by
  cases hcons : loc ++ [x] with
  | nil => exact absurd hcons (by simp)
  | cons a as =>
    have hdl : (a :: as).dropLast = loc := by
      rw [← hcons]
      exact List.dropLast_concat
    simp [reconstructLoop, hg, hn, hdl]

/-- Unfolding: a sentinel-named group layer with an empty stack faults. -/
theorem reconstructLoop_pop_empty (cw chh : Nat) (l : RawLayer) (rest : List RawLayer)
    (st : PsdState) (hg : l.is_group = true) (hn : l.name = closeSentinel) :
    reconstructLoop cw chh [] (l :: rest) st = (.error .ubPopEmpty, st) := by
  simp [reconstructLoop, hg, hn]

/-- Unfolding: a non-group layer is emitted with path = stack + own name and
its successfully composited canvas-sized pixel buffer. -/
theorem reconstructLoop_emit (cw chh : Nat) (l : RawLayer) (rest : List RawLayer)
    (loc : List (List Nat)) (st : PsdState) (pix : List Nat)
    (hg : l.is_group = false)
    (hca : compositeAll cw chh l l.channels (List.replicate ((cw * chh) % U32) 0) = .ok pix) :
    reconstructLoop cw chh loc (l :: rest) st =
      reconstructLoop cw chh loc rest
        { st with layers := st.layers ++
          [{ path := loc ++ [l.name], width := cw, height := chh, pixels := pix }] } := by
  simp [reconstructLoop, hg, hca]

/-- The reconstruction loop only appends to the output layer list and reads
nothing from the state: its result on any state is its result on the empty
state with the initial layers prepended. -/
theorem reconstructLoop_frame (cw chh : Nat) :
    ∀ ls loc st,
      reconstructLoop cw chh loc ls st =
        ((reconstructLoop cw chh loc ls ⟨cw, chh, []⟩).1,
         ⟨st.width, st.height,
          st.layers ++ (reconstructLoop cw chh loc ls ⟨cw, chh, []⟩).2.layers⟩) := by
  intro ls
  induction ls with
  | nil =>
    intro loc st
    simp [reconstructLoop_nil]
  | cons l rest ih =>
    intro loc st
    cases hg : l.is_group with
    | true =>
      by_cases hn : l.name = closeSentinel
      · cases hloc : loc with
        | nil =>
          rw [reconstructLoop_pop_empty cw chh l rest st hg hn,
              reconstructLoop_pop_empty cw chh l rest ⟨cw, chh, []⟩ hg hn]
          simp
        | cons a as =>
          have hsplit : a :: as = (a :: as).dropLast ++ [(a :: as).getLast (by simp)] :=
            (List.dropLast_append_getLast (by simp)).symm
          rw [hsplit, reconstructLoop_pop cw chh l rest _ _ st hg hn,
              reconstructLoop_pop cw chh l rest _ _ ⟨cw, chh, []⟩ hg hn]
          exact ih _ st
      · rw [reconstructLoop_push cw chh l rest loc st hg hn,
            reconstructLoop_push cw chh l rest loc ⟨cw, chh, []⟩ hg hn]
        exact ih _ st
    | false =>
      cases hca : compositeAll cw chh l l.channels (List.replicate ((cw * chh) % U32) 0) with
      | error e =>
        simp [reconstructLoop, hg, hca]
      | ok pix =>
        rw [reconstructLoop_emit cw chh l rest loc st pix hg hca,
            reconstructLoop_emit cw chh l rest loc ⟨cw, chh, []⟩ pix hg hca,
            ih loc { st with layers := st.layers ++
              [⟨loc ++ [l.name], cw, chh, pix⟩] }]
        conv_rhs => rw [ih loc]
        simp

mutual
/-- Running the reconstruction loop over a flattened well-formed tree
followed by `rest` behaves like running it over `rest` alone, except that
the tree's leaf layers are emitted first, with the paths `pathsT` predicts. -/
theorem flatten_run_T (cw chh : Nat) (hc : cw * chh < U32) (t : GTree)
    (rest : List RawLayer) (loc : List (List Nat)) (hwf : wfT t = true) :
    ((reconstructLoop cw chh loc (flattenT t ++ rest) ⟨cw, chh, []⟩).1 =
      (reconstructLoop cw chh loc rest ⟨cw, chh, []⟩).1) ∧
    ((reconstructLoop cw chh loc (flattenT t ++ rest) ⟨cw, chh, []⟩).2.layers.map
        (fun ol => ol.path) =
      pathsT loc t ++ (reconstructLoop cw chh loc rest ⟨cw, chh, []⟩).2.layers.map
        (fun ol => ol.path)) := by
  cases t with
  | leaf l =>
    have hg : l.is_group = false := by
      simp only [wfT, Bool.not_eq_true'] at hwf
      exact hwf
    have hpix0 : (List.replicate ((cw * chh) % U32) 0 : List Nat).length = cw * chh := by
      simp [Nat.mod_eq_of_lt hc]
    obtain ⟨pix, hca, hlp⟩ := compositeAll_ok cw chh l hc l.channels _ hpix0
    have hflat : flattenT (.leaf l) ++ rest = l :: rest := by
      simp [flattenT]
    rw [hflat, reconstructLoop_emit cw chh l rest loc ⟨cw, chh, []⟩ pix hg hca]
    rw [reconstructLoop_frame cw chh rest loc]
    constructor
    · rfl
    · simp [pathsT]
  | node o c f =>
    simp only [wfT, Bool.and_eq_true, Bool.not_eq_true', beq_eq_false_iff_ne, ne_eq,
      beq_iff_eq] at hwf
    obtain ⟨⟨⟨⟨hog, hon⟩, hcg⟩, hcn⟩, hwff⟩ := hwf
    have hflat : flattenT (.node o c f) ++ rest = o :: (flattenF f ++ (c :: rest)) := by
      simp [flattenT]
    rw [hflat, reconstructLoop_push cw chh o (flattenF f ++ (c :: rest)) loc ⟨cw, chh, []⟩
      hog hon]
    have hF := flatten_run_F cw chh hc f (c :: rest) (loc ++ [o.name]) hwff
    have hpop : reconstructLoop cw chh (loc ++ [o.name]) (c :: rest) (⟨cw, chh, []⟩ : PsdState) =
        reconstructLoop cw chh loc rest ⟨cw, chh, []⟩ :=
      reconstructLoop_pop cw chh c rest loc o.name ⟨cw, chh, []⟩ hcg hcn
    constructor
    · rw [hF.1, hpop]
    · rw [hF.2, hpop]
      simp [pathsT]

/-- Forest version of `flatten_run_T`. -/
theorem flatten_run_F (cw chh : Nat) (hc : cw * chh < U32) (f : GForest)
    (rest : List RawLayer) (loc : List (List Nat)) (hwf : wfF f = true) :
    ((reconstructLoop cw chh loc (flattenF f ++ rest) ⟨cw, chh, []⟩).1 =
      (reconstructLoop cw chh loc rest ⟨cw, chh, []⟩).1) ∧
    ((reconstructLoop cw chh loc (flattenF f ++ rest) ⟨cw, chh, []⟩).2.layers.map
        (fun ol => ol.path) =
      pathsF loc f ++ (reconstructLoop cw chh loc rest ⟨cw, chh, []⟩).2.layers.map
        (fun ol => ol.path)) := by
  cases f with
  | nil =>
    constructor
    · simp [flattenF]
    · simp [flattenF, pathsF]
  | cons t f' =>
    simp only [wfF, Bool.and_eq_true] at hwf
    obtain ⟨hwt, hwf'⟩ := hwf
    have hflat : flattenF (.cons t f') ++ rest = flattenT t ++ (flattenF f' ++ rest) := by
      simp [flattenF]
    rw [hflat]
    have hT := flatten_run_T cw chh hc t (flattenF f' ++ rest) loc hwt
    have hF := flatten_run_F cw chh hc f' rest loc hwf'
    constructor
    · exact hT.1.trans hF.1
    · rw [hT.2, hF.2]
      simp [pathsF]
end

/-- C3: for every well-formed nesting of group-open and group-close markers
(a `GForest`, already in reverse storage order, i.e. the order `psd::load`
processes raw layers), the reconstruction loop succeeds and yields exactly
one output layer per leaf, whose path is the names of all enclosing groups in
open (outermost-first) order followed by the leaf's own name; group and
divider pseudo-layers contribute no output layer.  (The canvas area must not
wrap `uint32_t`, which holds for every real canvas.) -/
theorem C3_group_paths (cw chh : Nat) (f : GForest)
    (hwf : wfF f = true) (hc : cw * chh < U32) :
    (reconstructLoop cw chh [] (flattenF f) ⟨cw, chh, []⟩).1 = .ok () ∧
    (reconstructLoop cw chh [] (flattenF f) ⟨cw, chh, []⟩).2.layers.map
      (fun ol => ol.path) = pathsF [] f := by
  have h := flatten_run_F cw chh hc f [] [] hwf
  rw [List.append_nil] at h
  constructor
  · rw [h.1, reconstructLoop_nil]
  · rw [h.2, reconstructLoop_nil]
    simp

/-- C3 (witness): the spec's Folder/B scenario — group-open `"Folder"`, leaf
`"B"`, group-close sentinel — yields the single path `["Folder", "B"]`. -/
theorem C3_group_paths_witness :
    (reconstructLoop 1 1 [] (flattenF gforestFolderB) ⟨1, 1, []⟩).1 = .ok () ∧
    (reconstructLoop 1 1 [] (flattenF gforestFolderB) ⟨1, 1, []⟩).2.layers.map
      (fun ol => ol.path) = pathsF [] gforestFolderB :=
  C3_group_paths 1 1 gforestFolderB (by decide) (by decide)

/-- Reading a set element back at the written index. -/
theorem getD_set_eq (l : List Nat) (i v : Nat) (hi : i < l.length) :
    (l.set i v).getD i 0 = v := by
  rw [List.getD_eq_getElem?_getD, List.getElem?_set_self hi]
  rfl

/-- Reading a set element back at a different index. -/
theorem getD_set_ne (l : List Nat) (i j v : Nat) (h : i ≠ j) :
    (l.set i v).getD j 0 = l.getD j 0 := by
  rw [List.getD_eq_getElem?_getD, List.getElem?_set_ne h, ← List.getD_eq_getElem?_getD]

/-- Coordinates below the canvas width address pixel cells injectively. -/
theorem coord_inj (cw x y px py : Nat) (hx : x < cw) (hpx : px < cw)
    (h : x + y * cw = px + py * cw) : x = px ∧ y = py := by
  have h1 : (x + y * cw) % cw = x := by
    rw [Nat.add_mul_mod_self_right]
    exact Nat.mod_eq_of_lt hx
  have h2 : (px + py * cw) % cw = px := by
    rw [Nat.add_mul_mod_self_right]
    exact Nat.mod_eq_of_lt hpx
  have hx2 : x = px := by rw [← h1, h, h2]
  subst hx2
  have hmul : y * cw = py * cw := by omega
  have hcw : 0 < cw := lt_of_le_of_lt (Nat.zero_le x) hx
  exact ⟨rfl, Nat.eq_of_mul_eq_mul_right hcw hmul⟩

/-- Full characterization of the compositor walk in the non-wrapping regime:
starting inside a bounding-box row with enough rows below the cursor for the
whole data, the walk succeeds and the final value of every canvas cell is its
initial value ORed with `orMask`'s contribution for that cell. -/
theorem compLoop_spec (cw chh left right shift : Nat)
    (hc : cw * chh < U32) (hrU : right < U32) :
    ∀ d x y pix, left ≤ x → x < right → y < U32 →
      (x - left) + d.length ≤ (y + 1) * (right - left) →
      pix.length = cw * chh →
      ∃ pix', compLoop cw chh left right shift d x y pix = .ok pix' ∧
        pix'.length = cw * chh ∧
        ∀ q, q < cw * chh →
          pix'.getD q 0 = pix.getD q 0 ||| orMask cw chh left right shift d x y q := by
  intro d
  induction d with
  | nil =>
    intro x y pix _ _ _ _ hl
    refine ⟨pix, rfl, hl, fun q _ => ?_⟩
    simp [orMask]
  | cons c d ih =>
    intro x y pix hlx hxr hyU hcap hl
    have hx1U : (x + 1) % U32 = x + 1 := Nat.mod_eq_of_lt (by omega)
    -- the write step: establish the written buffer and its per-index view
    have hstep : ∃ pix1, (if x < cw ∧ y < chh then
        (if (x + (y * cw) % U32) % U32 < pix.length then
          .ok (pix.set ((x + (y * cw) % U32) % U32)
            ((pix.getD ((x + (y * cw) % U32) % U32) 0) ||| (c <<< shift)))
        else .error .oobWrite)
      else (.ok pix : Except Err (List Nat))) = .ok pix1 ∧ pix1.length = cw * chh ∧
      ∀ q, q < cw * chh → pix1.getD q 0 =
        pix.getD q 0 ||| (if x < cw ∧ y < chh ∧ x + y * cw = q then c <<< shift else 0) := by
      by_cases hxy : x < cw ∧ y < chh
      · obtain ⟨hx, hy⟩ := hxy
        have key : x + y * cw < cw * chh := by
          have h2 : (y + 1) * cw ≤ chh * cw := Nat.mul_le_mul_right cw hy
          have h3 : y * cw + cw = (y + 1) * cw := (Nat.succ_mul y cw).symm
          have h4 : chh * cw = cw * chh := Nat.mul_comm _ _
          omega
        have hidx : (x + (y * cw) % U32) % U32 = x + y * cw := by
          rw [Nat.mod_eq_of_lt (by omega : y * cw < U32)]
          exact Nat.mod_eq_of_lt (by omega)
        rw [if_pos ⟨hx, hy⟩, hidx, if_pos (by omega : x + y * cw < pix.length)]
        refine ⟨_, rfl, by rw [List.length_set]; exact hl, fun q hq => ?_⟩
        by_cases hqi : x + y * cw = q
        · subst hqi
          rw [getD_set_eq pix _ _ (by omega), if_pos ⟨hx, hy, rfl⟩]
        · rw [getD_set_ne pix _ _ _ hqi, if_neg (by tauto), Nat.or_zero]
      · rw [if_neg hxy]
        refine ⟨pix, rfl, hl, fun q hq => ?_⟩
        rw [if_neg (by tauto), Nat.or_zero]
    obtain ⟨pix1, hs, hl1, hview⟩ := hstep
    simp only [compLoop, hs]
    by_cases hwrap : right ≤ (x + 1) % U32
    · rw [if_pos hwrap]
      rw [hx1U] at hwrap
      cases d with
      | nil =>
        refine ⟨pix1, rfl, hl1, fun q hq => ?_⟩
        rw [hview q hq]
        simp only [orMask]
        rw [if_pos hwrap]
        simp [orMask]
      | cons c2 d2 =>
        have hy1 : 1 ≤ y := by
          have hmul : (y + 1) * (right - left) = y * (right - left) + (right - left) :=
            Nat.succ_mul y (right - left)
          rcases Nat.eq_zero_or_pos y with h0 | h0
          · exfalso
            subst h0
            simp at hcap hmul
            omega
          · exact h0
        have hdec : w32dec y = y - 1 := by
          have : y + (U32 - 1) = (y - 1) + U32 := by omega
          rw [w32dec, this, Nat.add_mod_right]
          exact Nat.mod_eq_of_lt (by omega)
        rw [hdec]
        have hcap' : (left - left) + (c2 :: d2).length ≤ ((y - 1) + 1) * (right - left) := by
          have hmul : (y + 1) * (right - left) = y * (right - left) + (right - left) :=
            Nat.succ_mul y (right - left)
          have hy1' : (y - 1) + 1 = y := by omega
          rw [hy1']
          simp only [List.length_cons] at hcap ⊢
          omega
        obtain ⟨pix', hco, hlp, hch⟩ := ih left (y - 1) pix1 le_rfl (by omega) (by omega) hcap' hl1
        refine ⟨pix', hco, hlp, fun q hq => ?_⟩
        rw [hch q hq, hview q hq]
        simp only [orMask]
        rw [if_pos hwrap, Nat.or_assoc]
    · rw [if_neg hwrap]
      rw [hx1U] at hwrap
      rw [hx1U]
      have hcap' : ((x + 1) - left) + d.length ≤ (y + 1) * (right - left) := by
        simp only [List.length_cons] at hcap
        omega
      obtain ⟨pix', hco, hlp, hch⟩ := ih (x + 1) y pix1 (by omega) (by omega) hyU hcap' hl1
      refine ⟨pix', hco, hlp, fun q hq => ?_⟩
      rw [hch q hq, hview q hq]
      simp only [orMask]
      rw [if_neg hwrap, Nat.or_assoc]

/-- Outside the rows `[t, y]` and the columns `[left, right)` the compositor
walk contributes nothing: when the data fits in the rows from `y` down to
`t`, `orMask` is zero at every canvas cell whose coordinate lies outside that
box. -/
theorem orMask_outside (cw chh left right shift : Nat) (hc : cw * chh < U32) :
    ∀ d x y t q px py, left ≤ x → x < right →
      (x - left) + d.length ≤ (y + 1 - t) * (right - left) →
      px < cw → py < chh →
      (px < left ∨ right ≤ px ∨ py < t ∨ y < py) →
      q = px + py * cw →
      orMask cw chh left right shift d x y q = 0 := by
  intro d
  induction d with
  | nil =>
    intro x y t q px py _ _ _ _ _ _ _
    simp [orMask]
  | cons c d ih =>
    intro x y t q px py hlx hxr hcap hpx hpy hout hq
    have hty : t ≤ y := by
      rcases Nat.eq_zero_or_pos (y + 1 - t) with h0 | h0
      · exfalso
        rw [h0, Nat.zero_mul] at hcap
        simp at hcap
      · omega
    have hhead : (if x < cw ∧ y < chh ∧ x + y * cw = q then c <<< shift else 0) = 0 := by
      by_cases hcnd : x < cw ∧ y < chh ∧ x + y * cw = q
      · exfalso
        obtain ⟨hxc, hyc, hxyq⟩ := hcnd
        rw [hq] at hxyq
        obtain ⟨hxe, hye⟩ := coord_inj cw x y px py hxc hpx hxyq
        rcases hout with h | h | h | h
        · omega
        · omega
        · omega
        · omega
      · rw [if_neg hcnd]
    simp only [orMask]
    rw [hhead, Nat.zero_or]
    by_cases hwrap : right ≤ x + 1
    · rw [if_pos hwrap]
      cases d with
      | nil => simp [orMask]
      | cons c2 d2 =>
        have hmul : (y + 1 - t) * (right - left) =
            (y - t) * (right - left) + (right - left) := by
          have h1 : y + 1 - t = (y - t) + 1 := by omega
          rw [h1, Nat.succ_mul]
        have hy1 : 1 ≤ y := by
          rcases Nat.eq_zero_or_pos y with h0 | h0
          · exfalso
            subst h0
            have ht0 : t = 0 := by omega
            subst ht0
            simp only [List.length_cons] at hcap
            simp at hmul
            omega
          · exact h0
        apply ih left (y - 1) t q px py le_rfl (by omega) ?_ hpx hpy ?_ hq
        · simp only [List.length_cons] at hcap ⊢
          have h1 : (y - 1) + 1 - t = y - t := by omega
          rw [h1]
          omega
        · rcases hout with h | h | h | h
          · exact Or.inl h
          · exact Or.inr (Or.inl h)
          · exact Or.inr (Or.inr (Or.inl h))
          · exact Or.inr (Or.inr (Or.inr (by omega)))
    · rw [if_neg hwrap]
      apply ih (x + 1) y t q px py (by omega) (by omega) ?_ hpx hpy hout hq
      simp only [List.length_cons] at hcap
      omega

/-- C5 (amended): when a channel's decoded data does not exceed the
bounding-box area (the case the run-length overshoot of C1 violates), the
compositor ORs each byte, shifted by 8 × its channel slot, into the packed
pixel at `x + y * width` exactly when `(x, y)` lies within
`[0, width) × [0, height)` (the `orMask` characterization below), silently
drops out-of-canvas coordinates, and leaves every canvas pixel outside the
bounding box at its initial (zero-default) value. -/
theorem C5_compositor_spec (cw chh left right top bot shift : Nat)
    (data pix : List Nat)
    (hlr : left < right) (htb : top ≤ bot) (hb1 : 1 ≤ bot) (hbU : bot < U32)
    (hrU : right < U32)
    (hlen : data.length ≤ (bot - top) * (right - left))
    (hc : cw * chh < U32) (hpl : pix.length = cw * chh) :
    ∃ pix', compositeChannel cw chh left right bot shift data pix = .ok pix' ∧
      (∀ q, q < cw * chh →
        pix'.getD q 0 =
          pix.getD q 0 ||| orMask cw chh left right shift data left (bot - 1) q) ∧
      (∀ px py, px < cw → py < chh →
        (px < left ∨ right ≤ px ∨ py < top ∨ bot ≤ py) →
        pix'.getD (px + py * cw) 0 = pix.getD (px + py * cw) 0) := by
  have hdec : w32dec bot = bot - 1 := by
    have h1 : bot + (U32 - 1) = (bot - 1) + U32 := by omega
    rw [w32dec, h1, Nat.add_mod_right]
    exact Nat.mod_eq_of_lt (by omega)
  have hcap : (left - left) + data.length ≤ ((bot - 1) + 1) * (right - left) := by
    have h1 : (bot - 1) + 1 = bot := by omega
    rw [h1]
    have h2 : (bot - top) * (right - left) ≤ bot * (right - left) :=
      Nat.mul_le_mul_right (right - left) (Nat.sub_le bot top)
    omega
  obtain ⟨pix', hok, hlp, hchar⟩ := compLoop_spec cw chh left right shift hc hrU data
    left (bot - 1) pix le_rfl hlr (by omega) hcap hpl
  refine ⟨pix', ?_, hchar, ?_⟩
  · unfold compositeChannel
    rw [hdec]
    exact hok
  · intro px py hpx hpy hout
    have hq : px + py * cw < cw * chh := by
      have h2 : (py + 1) * cw ≤ chh * cw := Nat.mul_le_mul_right cw hpy
      have h3 : py * cw + cw = (py + 1) * cw := (Nat.succ_mul py cw).symm
      have h4 : chh * cw = cw * chh := Nat.mul_comm _ _
      omega
    rw [hchar _ hq]
    have hcap2 : (left - left) + data.length ≤ ((bot - 1) + 1 - top) * (right - left) := by
      have h1 : (bot - 1) + 1 - top = bot - top := by omega
      rw [h1]
      omega
    rw [orMask_outside cw chh left right shift hc data left (bot - 1) top
      (px + py * cw) px py le_rfl hlr hcap2 hpx hpy ?_ rfl]
    · exact Nat.or_zero _
    · rcases hout with h | h | h | h
      · exact Or.inl h
      · exact Or.inr (Or.inl h)
      · exact Or.inr (Or.inr (Or.inl h))
      · exact Or.inr (Or.inr (Or.inr (by omega)))

/-- C5 (witness for the amended theorem): a one-byte channel for the
one-pixel box (0,1)-(1,2) on a 2×2 canvas. -/
theorem C5_compositor_spec_witness :
    ∃ pix', compositeChannel 2 2 0 1 2 0 [5] [0, 0, 0, 0] = .ok pix' ∧
      (∀ q, q < 2 * 2 →
        pix'.getD q 0 =
          ([0, 0, 0, 0] : List Nat).getD q 0 ||| orMask 2 2 0 1 0 [5] 0 (2 - 1) q) ∧
      (∀ px py, px < 2 → py < 2 →
        (px < 0 ∨ 1 ≤ px ∨ py < 1 ∨ 2 ≤ py) →
        pix'.getD (px + py * 2) 0 = ([0, 0, 0, 0] : List Nat).getD (px + py * 2) 0) :=
  C5_compositor_spec 2 2 0 1 1 2 0 [5] [0, 0, 0, 0] (by decide) (by decide) (by decide)
    (by decide) (by decide) (by decide) (by decide) (by decide)

/-- C5 (counterexample): decoding `bufRleOvershoot` end-to-end: the layer's
bounding box is the single pixel `(0, 1)` of a 2×2 canvas, but its
run-length stream carries one byte past the box (C1's overshoot), and the
compositor keeps walking — the canvas pixel `(0, 0)`, *outside* the bounding
box, ends up `6` instead of keeping the zero default. -/
theorem C5_counterexample :
    psdLoad bufRleOvershoot ⟨0, 0, []⟩ =
      (.ok (), ⟨2, 2, [⟨[[0x41]], 2, 2, [6, 0, 5, 0]⟩]⟩) ∧
    ((⟨[[0x41]], 2, 2, [6, 0, 5, 0]⟩ : OutLayer).pixels.getD (0 + 0 * 2) 0 ≠ 0) := by
  constructor
  · rfl
  · decide

/-- `read16` success pins the final position and the bounds check. -/
theorem read16_ok (buf : List Nat) (pos v q : Nat) (h : read16 buf pos = .ok (v, q)) :
    q = pos + 2 ∧ pos + 2 ≤ buf.length := by
  simp only [read16] at h
  split at h
  · cases h
  · cases h
    exact ⟨rfl, by omega⟩

/-- `read32` success pins the final position and the bounds check. -/
theorem read32_ok (buf : List Nat) (pos v q : Nat) (h : read32 buf pos = .ok (v, q)) :
    q = pos + 4 ∧ pos + 4 ≤ buf.length := by
  simp only [read32] at h
  split at h
  · cases h
  · cases h
    exact ⟨rfl, by omega⟩

/-- `skip` success pins the final position and the bounds check. -/
theorem skipN_ok (buf : List Nat) (amt pos q : Nat) (h : skipN buf amt pos = .ok q) :
    q = pos + amt ∧ pos + amt ≤ buf.length := by
  simp only [skipN] at h
  split at h
  · cases h
  · cases h
    exact ⟨rfl, by omega⟩

/-- The channel-descriptor loop consumes exactly 6 bytes per channel. -/
theorem parseChannelDescs_pos (buf : List Nat) :
    ∀ n pos chs q, parseChannelDescs buf n pos = .ok (chs, q) → q = pos + 6 * n := by
  intro n
  induction n with
  | zero =>
    intro pos chs q h
    simp only [parseChannelDescs] at h
    cases h
    omega
  | succ n ih =>
    intro pos chs q h
    simp only [parseChannelDescs] at h
    split at h
    · cases h
    · rename_i k p1 h16
      split at h
      · cases h
      · rename_i len p2 h32
        split at h
        · cases h
        · rename_i chs' p3 hrec
          cases h
          have e16 := read16_ok buf pos k p1 h16
          have e32 := read32_ok buf p1 len p2 h32
          have := ih p2 chs' q hrec
          omega

/-- The name loop consumes exactly one byte per name character. -/
theorem readNameBytes_pos (buf : List Nat) :
    ∀ n pos bs q, readNameBytes buf n pos = .ok (bs, q) → q = pos + n := by
  intro n
  induction n with
  | zero =>
    intro pos bs q h
    simp only [readNameBytes] at h
    cases h
    omega
  | succ n ih =>
    intro pos bs q h
    simp only [readNameBytes] at h
    split at h
    · cases h
    · rename_i b p1 h8
      split at h
      · cases h
      · rename_i bs' p2 hrec
        cases h
        have e8 := read8_ok buf pos b p1 h8
        have := ih p1 bs' q hrec
        omega

/-- The padding loop never moves the cursor backwards. -/
theorem readPaddingGo_pos_le (buf : List Nat) :
    ∀ fuel len pos q, readPaddingGo buf fuel len pos = .ok q → pos ≤ q := by
  intro fuel
  induction fuel with
  | zero =>
    intro len pos q h
    rw [readPaddingGo] at h
    split at h
    · cases h
      exact le_refl _
    · cases h
  | succ f ih =>
    intro len pos q h
    rw [readPaddingGo] at h
    split at h
    · cases h
      exact le_refl _
    · split at h
      · cases h
      · rename_i v p1 h8
        have e8 := read8_ok buf pos v p1 h8
        have := ih (len + 1) p1 q h
        omega

/-- Buffers agreeing outside the window return equal optional elements
outside the window. -/
theorem sameOutside_getElem? (m : Nat) (b1 b2 : List Nat) (hso : sameOutside m b1 b2)
    (j : Nat) (hj : j < m ∨ m + 4 ≤ j) : b2[j]? = b1[j]? := by
  obtain ⟨hlen, hag⟩ := hso
  by_cases hjl : j < b1.length
  · have hjl2 : j < b2.length := by omega
    have h1 : b1[j] = b1.getD j 0 := by
      rw [List.getD_eq_getElem?_getD, List.getElem?_eq_getElem hjl]
      rfl
    have h2 : b2[j] = b2.getD j 0 := by
      rw [List.getD_eq_getElem?_getD, List.getElem?_eq_getElem hjl2]
      rfl
    rw [List.getElem?_eq_getElem hjl, List.getElem?_eq_getElem hjl2, h1, h2,
      hag j hjl hj]
  · rw [List.getElem?_eq_none (show b1.length ≤ j by omega),
      List.getElem?_eq_none (show b2.length ≤ j by omega)]

/-- `read8` sees the same byte through either buffer when its 1-byte window
avoids the modified field. -/
theorem read8_congr (m : Nat) (b1 b2 : List Nat) (hso : sameOutside m b1 b2)
    (pos : Nat) (hpos : pos + 1 ≤ m ∨ m + 4 ≤ pos) : read8 b2 pos = read8 b1 pos := by
  obtain ⟨hlen, hag⟩ := hso
  by_cases hchk : pos + 1 > b1.length
  · rw [read8, read8, if_pos (by omega), if_pos hchk]
  · rw [read8, read8, if_neg (by omega), if_neg hchk]
    rw [hag pos (by omega) (by omega)]

/-- `read16` congruence outside the modified field. -/
theorem read16_congr (m : Nat) (b1 b2 : List Nat) (hso : sameOutside m b1 b2)
    (pos : Nat) (hpos : pos + 2 ≤ m ∨ m + 4 ≤ pos) : read16 b2 pos = read16 b1 pos := by
  obtain ⟨hlen, hag⟩ := hso
  by_cases hchk : pos + 2 > b1.length
  · rw [read16, read16, if_pos (by omega), if_pos hchk]
  · rw [read16, read16, if_neg (by omega), if_neg hchk]
    rw [hag pos (by omega) (by omega), hag (pos + 1) (by omega) (by omega)]

/-- `read32` congruence outside the modified field. -/
theorem read32_congr (m : Nat) (b1 b2 : List Nat) (hso : sameOutside m b1 b2)
    (pos : Nat) (hpos : pos + 4 ≤ m ∨ m + 4 ≤ pos) : read32 b2 pos = read32 b1 pos := by
  obtain ⟨hlen, hag⟩ := hso
  by_cases hchk : pos + 4 > b1.length
  · rw [read32, read32, if_pos (by omega), if_pos hchk]
  · rw [read32, read32, if_neg (by omega), if_neg hchk]
    rw [hag pos (by omega) (by omega), hag (pos + 1) (by omega) (by omega),
      hag (pos + 2) (by omega) (by omega), hag (pos + 3) (by omega) (by omega)]

/-- `skip` reads no bytes: only the (equal) lengths matter. -/
theorem skipN_congr (m : Nat) (b1 b2 : List Nat) (hso : sameOutside m b1 b2)
    (amt pos : Nat) : skipN b2 amt pos = skipN b1 amt pos := by
  obtain ⟨hlen, _⟩ := hso
  by_cases hchk : pos + amt > b1.length
  · rw [skipN, skipN, if_pos (by omega), if_pos hchk]
  · rw [skipN, skipN, if_neg (by omega), if_neg hchk]

/-- Literal-run reads entirely above the modified field are unaffected. -/
theorem readRun_high (m : Nat) (b1 b2 : List Nat) (hso : sameOutside m b1 b2) :
    ∀ n pos, m + 4 ≤ pos → readRun b2 n pos = readRun b1 n pos := by
  intro n
  induction n with
  | zero =>
    intro pos _
    rfl
  | succ n ih =>
    intro pos hpos
    simp only [readRun]
    rw [read8_congr m b1 b2 hso pos (Or.inr (by omega))]
    cases h8 : read8 b1 pos with
    | error e => rfl
    | ok v =>
      obtain ⟨b, p1⟩ := v
      have e8 := read8_ok b1 pos b p1 h8
      dsimp only
      rw [ih p1 (by omega)]

/-- Name-byte reads entirely above the modified field are unaffected. -/
theorem readNameBytes_high (m : Nat) (b1 b2 : List Nat) (hso : sameOutside m b1 b2) :
    ∀ n pos, m + 4 ≤ pos → readNameBytes b2 n pos = readNameBytes b1 n pos := by
  intro n
  induction n with
  | zero =>
    intro pos _
    rfl
  | succ n ih =>
    intro pos hpos
    simp only [readNameBytes]
    rw [read8_congr m b1 b2 hso pos (Or.inr (by omega))]
    cases h8 : read8 b1 pos with
    | error e => rfl
    | ok v =>
      obtain ⟨b, p1⟩ := v
      have e8 := read8_ok b1 pos b p1 h8
      dsimp only
      rw [ih p1 (by omega)]

/-- Padding reads entirely above the modified field are unaffected. -/
theorem readPaddingGo_high (m : Nat) (b1 b2 : List Nat) (hso : sameOutside m b1 b2) :
    ∀ fuel len pos, m + 4 ≤ pos →
      readPaddingGo b2 fuel len pos = readPaddingGo b1 fuel len pos := by
  intro fuel
  induction fuel with
  | zero =>
    intro len pos _
    rw [readPaddingGo, readPaddingGo]
  | succ f ih =>
    intro len pos hpos
    rw [readPaddingGo, readPaddingGo]
    by_cases hz : len % 4 = 0
    · rw [if_pos hz, if_pos hz]
    · rw [if_neg hz, if_neg hz]
      rw [read8_congr m b1 b2 hso pos (Or.inr (by omega))]
      cases h8 : read8 b1 pos with
      | error e => rfl
      | ok v =>
        obtain ⟨b, p1⟩ := v
        have e8 := read8_ok b1 pos b p1 h8
        exact ih (len + 1) p1 (by omega)

/-- `readPadding` with its fixed fuel inherits the congruence. -/
theorem readPadding_high (m : Nat) (b1 b2 : List Nat) (hso : sameOutside m b1 b2)
    (len pos : Nat) (hpos : m + 4 ≤ pos) :
    readPadding b2 len pos = readPadding b1 len pos :=
  readPaddingGo_high m b1 b2 hso 3 len pos hpos

/-- Channel-descriptor reads entirely above the modified field are
unaffected. -/
theorem parseChannelDescs_high (m : Nat) (b1 b2 : List Nat) (hso : sameOutside m b1 b2) :
    ∀ n pos, m + 4 ≤ pos → parseChannelDescs b2 n pos = parseChannelDescs b1 n pos := by
  intro n
  induction n with
  | zero =>
    intro pos _
    rfl
  | succ n ih =>
    intro pos hpos
    simp only [parseChannelDescs]
    rw [read16_congr m b1 b2 hso pos (Or.inr (by omega))]
    cases h16 : read16 b1 pos with
    | error e => rfl
    | ok v =>
      obtain ⟨k, p1⟩ := v
      have e16 := read16_ok b1 pos k p1 h16
      dsimp only
      rw [read32_congr m b1 b2 hso p1 (Or.inr (by omega))]
      cases h32 : read32 b1 p1 with
      | error e => rfl
      | ok w =>
        obtain ⟨len, p2⟩ := w
        have e32 := read32_ok b1 p1 len p2 h32
        dsimp only
        rw [ih p2 (by omega)]

/-- A record tail that starts entirely above the modified field is
unaffected by it (every read of the tail happens at or beyond its start). -/
theorem parseOneLayerRest_high (m : Nat) (b1 b2 : List Nat) (hso : sameOutside m b1 b2)
    (top left bot right : Nat) (chs : List RawChannel) (pos : Nat) (hpos : m + 4 ≤ pos) :
    parseOneLayerRest b2 top left bot right chs pos =
      parseOneLayerRest b1 top left bot right chs pos := by
  simp only [parseOneLayerRest]
  rw [read32_congr m b1 b2 hso pos (Or.inr (by omega))]
  cases hsig : read32 b1 pos with
  | error e => rfl
  | ok v =>
  obtain ⟨sig, p7⟩ := v
  have e1 := read32_ok b1 pos sig p7 hsig
  dsimp only
  by_cases hs : sig ≠ 0x3842494D
  · rw [if_pos hs, if_pos hs]
  · rw [if_neg hs, if_neg hs]
    rw [read32_congr m b1 b2 hso p7 (Or.inr (by omega))]
    cases hbl : read32 b1 p7 with
    | error e => rfl
    | ok v =>
    obtain ⟨bl, p8⟩ := v
    have e2 := read32_ok b1 p7 bl p8 hbl
    dsimp only
    rw [read8_congr m b1 b2 hso p8 (Or.inr (by omega))]
    cases hop : read8 b1 p8 with
    | error e => rfl
    | ok v =>
    obtain ⟨op, p9⟩ := v
    have e3 := read8_ok b1 p8 op p9 hop
    dsimp only
    rw [read8_congr m b1 b2 hso p9 (Or.inr (by omega))]
    cases hcl : read8 b1 p9 with
    | error e => rfl
    | ok v =>
    obtain ⟨cl, p10⟩ := v
    have e4 := read8_ok b1 p9 cl p10 hcl
    dsimp only
    rw [read8_congr m b1 b2 hso p10 (Or.inr (by omega))]
    cases hfl : read8 b1 p10 with
    | error e => rfl
    | ok v =>
    obtain ⟨fl, p11⟩ := v
    have e5 := read8_ok b1 p10 fl p11 hfl
    dsimp only
    rw [read8_congr m b1 b2 hso p11 (Or.inr (by omega))]
    cases hz : read8 b1 p11 with
    | error e => rfl
    | ok v =>
    obtain ⟨z, p12⟩ := v
    have e6 := read8_ok b1 p11 z p12 hz
    dsimp only
    rw [read32_congr m b1 b2 hso p12 (Or.inr (by omega))]
    cases hle : read32 b1 p12 with
    | error e => rfl
    | ok v =>
    obtain ⟨lenExtra, p13⟩ := v
    have e7 := read32_ok b1 p12 lenExtra p13 hle
    dsimp only
    rw [read32_congr m b1 b2 hso p13 (Or.inr (by omega))]
    cases hml : read32 b1 p13 with
    | error e => rfl
    | ok v =>
    obtain ⟨maskLen, p14⟩ := v
    have e8 := read32_ok b1 p13 maskLen p14 hml
    dsimp only
    rw [skipN_congr m b1 b2 hso maskLen p14]
    cases hsk1 : skipN b1 maskLen p14 with
    | error e => rfl
    | ok p15 =>
    have e9 := skipN_ok b1 maskLen p14 p15 hsk1
    dsimp only
    rw [read32_congr m b1 b2 hso p15 (Or.inr (by omega))]
    cases hrl : read32 b1 p15 with
    | error e => rfl
    | ok v =>
    obtain ⟨rangesLen, p16⟩ := v
    have e10 := read32_ok b1 p15 rangesLen p16 hrl
    dsimp only
    rw [skipN_congr m b1 b2 hso rangesLen p16]
    cases hsk2 : skipN b1 rangesLen p16 with
    | error e => rfl
    | ok p17 =>
    have e11 := skipN_ok b1 rangesLen p16 p17 hsk2
    dsimp only
    rw [read8_congr m b1 b2 hso p17 (Or.inr (by omega))]
    cases hn0 : read8 b1 p17 with
    | error e => rfl
    | ok v =>
    obtain ⟨n0, p18⟩ := v
    have e12 := read8_ok b1 p17 n0 p18 hn0
    dsimp only
    rw [readNameBytes_high m b1 b2 hso n0 p18 (by omega)]
    cases hnm : readNameBytes b1 n0 p18 with
    | error e => rfl
    | ok v =>
    obtain ⟨nm, p19⟩ := v
    have e13 := readNameBytes_pos b1 n0 p18 nm p19 hnm
    dsimp only
    rw [readPadding_high m b1 b2 hso (1 + n0) p19 (by omega)]
    cases hpd : readPadding b1 (1 + n0) p19 with
    | error e => rfl
    | ok p20 =>
    have e14 := readPaddingGo_pos_le b1 3 (1 + n0) p19 p20 hpd
    dsimp only
    by_cases hee : p20 ≤ p13 + lenExtra
    · rw [if_pos hee, if_pos hee]
      rw [skipN_congr m b1 b2 hso (p13 + lenExtra - p20) p20]
    · rw [if_neg hee, if_neg hee]

/-- The record tail never moves the cursor backwards. -/
theorem parseOneLayerRest_pos_le (buf : List Nat) (top left bot right : Nat)
    (chs : List RawChannel) (pos : Nat) (l : RawLayer) (q : Nat)
    (h : parseOneLayerRest buf top left bot right chs pos = .ok (l, q)) : pos ≤ q := by
  simp only [parseOneLayerRest] at h
  cases hsig : read32 buf pos with
  | error e => rw [hsig] at h; cases h
  | ok v =>
  obtain ⟨sig, p7⟩ := v
  rw [hsig] at h
  dsimp only at h
  have e1 := read32_ok buf pos sig p7 hsig
  by_cases hs : sig ≠ 0x3842494D
  · rw [if_pos hs] at h
    cases h
  · rw [if_neg hs] at h
    cases hbl : read32 buf p7 with
    | error e => rw [hbl] at h; cases h
    | ok v =>
    obtain ⟨bl, p8⟩ := v
    rw [hbl] at h
    dsimp only at h
    have e2 := read32_ok buf p7 bl p8 hbl
    cases hop : read8 buf p8 with
    | error e => rw [hop] at h; cases h
    | ok v =>
    obtain ⟨op, p9⟩ := v
    rw [hop] at h
    dsimp only at h
    have e3 := read8_ok buf p8 op p9 hop
    cases hcl : read8 buf p9 with
    | error e => rw [hcl] at h; cases h
    | ok v =>
    obtain ⟨cl, p10⟩ := v
    rw [hcl] at h
    dsimp only at h
    have e4 := read8_ok buf p9 cl p10 hcl
    cases hfl : read8 buf p10 with
    | error e => rw [hfl] at h; cases h
    | ok v =>
    obtain ⟨fl, p11⟩ := v
    rw [hfl] at h
    dsimp only at h
    have e5 := read8_ok buf p10 fl p11 hfl
    cases hz : read8 buf p11 with
    | error e => rw [hz] at h; cases h
    | ok v =>
    obtain ⟨z, p12⟩ := v
    rw [hz] at h
    dsimp only at h
    have e6 := read8_ok buf p11 z p12 hz
    cases hle : read32 buf p12 with
    | error e => rw [hle] at h; cases h
    | ok v =>
    obtain ⟨lenExtra, p13⟩ := v
    rw [hle] at h
    dsimp only at h
    have e7 := read32_ok buf p12 lenExtra p13 hle
    cases hml : read32 buf p13 with
    | error e => rw [hml] at h; cases h
    | ok v =>
    obtain ⟨maskLen, p14⟩ := v
    rw [hml] at h
    dsimp only at h
    have e8 := read32_ok buf p13 maskLen p14 hml
    cases hsk1 : skipN buf maskLen p14 with
    | error e => rw [hsk1] at h; cases h
    | ok p15 =>
    rw [hsk1] at h
    dsimp only at h
    have e9 := skipN_ok buf maskLen p14 p15 hsk1
    cases hrl : read32 buf p15 with
    | error e => rw [hrl] at h; cases h
    | ok v =>
    obtain ⟨rangesLen, p16⟩ := v
    rw [hrl] at h
    dsimp only at h
    have e10 := read32_ok buf p15 rangesLen p16 hrl
    cases hsk2 : skipN buf rangesLen p16 with
    | error e => rw [hsk2] at h; cases h
    | ok p17 =>
    rw [hsk2] at h
    dsimp only at h
    have e11 := skipN_ok buf rangesLen p16 p17 hsk2
    cases hn0 : read8 buf p17 with
    | error e => rw [hn0] at h; cases h
    | ok v =>
    obtain ⟨n0, p18⟩ := v
    rw [hn0] at h
    dsimp only at h
    have e12 := read8_ok buf p17 n0 p18 hn0
    cases hnm : readNameBytes buf n0 p18 with
    | error e => rw [hnm] at h; cases h
    | ok v =>
    obtain ⟨nm, p19⟩ := v
    rw [hnm] at h
    dsimp only at h
    have e13 := readNameBytes_pos buf n0 p18 nm p19 hnm
    cases hpd : readPadding buf (1 + n0) p19 with
    | error e => rw [hpd] at h; cases h
    | ok p20 =>
    rw [hpd] at h
    dsimp only at h
    have e14 := readPaddingGo_pos_le buf 3 (1 + n0) p19 p20 hpd
    by_cases hee : p20 ≤ p13 + lenExtra
    · rw [if_pos hee] at h
      cases hsk3 : skipN buf (p13 + lenExtra - p20) p20 with
      | error e => rw [hsk3] at h; cases h
      | ok p21 =>
      rw [hsk3] at h
      dsimp only at h
      have e15 := skipN_ok buf (p13 + lenExtra - p20) p20 p21 hsk3
      cases h
      omega
    · rw [if_neg hee] at h
      cases h

/-- A whole layer record starting above the modified field is unaffected. -/
theorem parseOneLayer_high (m : Nat) (b1 b2 : List Nat) (hso : sameOutside m b1 b2)
    (pos : Nat) (hpos : m + 4 ≤ pos) : parseOneLayer b2 pos = parseOneLayer b1 pos := by
  simp only [parseOneLayer]
  rw [read32_congr m b1 b2 hso pos (Or.inr (by omega))]
  cases h1 : read32 b1 pos with
  | error e => rfl
  | ok v =>
  obtain ⟨top, p1⟩ := v
  have e1 := read32_ok b1 pos top p1 h1
  dsimp only
  rw [read32_congr m b1 b2 hso p1 (Or.inr (by omega))]
  cases h2 : read32 b1 p1 with
  | error e => rfl
  | ok v =>
  obtain ⟨left, p2⟩ := v
  have e2 := read32_ok b1 p1 left p2 h2
  dsimp only
  rw [read32_congr m b1 b2 hso p2 (Or.inr (by omega))]
  cases h3 : read32 b1 p2 with
  | error e => rfl
  | ok v =>
  obtain ⟨bot, p3⟩ := v
  have e3 := read32_ok b1 p2 bot p3 h3
  dsimp only
  rw [read32_congr m b1 b2 hso p3 (Or.inr (by omega))]
  cases h4 : read32 b1 p3 with
  | error e => rfl
  | ok v =>
  obtain ⟨right, p4⟩ := v
  have e4 := read32_ok b1 p3 right p4 h4
  dsimp only
  rw [read16_congr m b1 b2 hso p4 (Or.inr (by omega))]
  cases h5 : read16 b1 p4 with
  | error e => rfl
  | ok v =>
  obtain ⟨chCount, p5⟩ := v
  have e5 := read16_ok b1 p4 chCount p5 h5
  dsimp only
  rw [parseChannelDescs_high m b1 b2 hso chCount p5 (by omega)]
  cases h6 : parseChannelDescs b1 chCount p5 with
  | error e => rfl
  | ok v =>
  obtain ⟨chs, p6⟩ := v
  have e6 := parseChannelDescs_pos b1 chCount p5 chs p6 h6
  dsimp only
  exact parseOneLayerRest_high m b1 b2 hso top left bot right chs p6 (by omega)

/-- A layer record never moves the cursor backwards. -/
theorem parseOneLayer_pos_le (buf : List Nat) (pos : Nat) (l : RawLayer) (q : Nat)
    (h : parseOneLayer buf pos = .ok (l, q)) : pos ≤ q := by
  simp only [parseOneLayer] at h
  cases h1 : read32 buf pos with
  | error e => rw [h1] at h; cases h
  | ok v =>
  obtain ⟨top, p1⟩ := v
  rw [h1] at h
  dsimp only at h
  have e1 := read32_ok buf pos top p1 h1
  cases h2 : read32 buf p1 with
  | error e => rw [h2] at h; cases h
  | ok v =>
  obtain ⟨left, p2⟩ := v
  rw [h2] at h
  dsimp only at h
  have e2 := read32_ok buf p1 left p2 h2
  cases h3 : read32 buf p2 with
  | error e => rw [h3] at h; cases h
  | ok v =>
  obtain ⟨bot, p3⟩ := v
  rw [h3] at h
  dsimp only at h
  have e3 := read32_ok buf p2 bot p3 h3
  cases h4 : read32 buf p3 with
  | error e => rw [h4] at h; cases h
  | ok v =>
  obtain ⟨right, p4⟩ := v
  rw [h4] at h
  dsimp only at h
  have e4 := read32_ok buf p3 right p4 h4
  cases h5 : read16 buf p4 with
  | error e => rw [h5] at h; cases h
  | ok v =>
  obtain ⟨chCount, p5⟩ := v
  rw [h5] at h
  dsimp only at h
  have e5 := read16_ok buf p4 chCount p5 h5
  cases h6 : parseChannelDescs buf chCount p5 with
  | error e => rw [h6] at h; cases h
  | ok v =>
  obtain ⟨chs, p6⟩ := v
  rw [h6] at h
  dsimp only at h
  have e6 := parseChannelDescs_pos buf chCount p5 chs p6 h6
  have e7 := parseOneLayerRest_pos_le buf top left bot right chs p6 l q h
  omega

/-- The layer-record loop never moves the cursor backwards. -/
theorem parseLayerRecords_pos_le (buf : List Nat) :
    ∀ n pos ls q, parseLayerRecords buf n pos = .ok (ls, q) → pos ≤ q := by
  intro n
  induction n with
  | zero =>
    intro pos ls q h
    simp only [parseLayerRecords] at h
    cases h
    exact le_refl _
  | succ n ih =>
    intro pos ls q h
    simp only [parseLayerRecords] at h
    split at h
    · cases h
    · rename_i l p1 h1
      split at h
      · cases h
      · rename_i ls' p2 h2
        cases h
        have e1 := parseOneLayer_pos_le buf pos l p1 h1
        have e2 := ih p1 ls' q h2
        omega

/-- Layer records parsed entirely above the modified field are unaffected. -/
theorem parseLayerRecords_high (m : Nat) (b1 b2 : List Nat) (hso : sameOutside m b1 b2) :
    ∀ n pos, m + 4 ≤ pos → parseLayerRecords b2 n pos = parseLayerRecords b1 n pos := by
  intro n
  induction n with
  | zero =>
    intro pos _
    rfl
  | succ n ih =>
    intro pos hpos
    simp only [parseLayerRecords]
    rw [parseOneLayer_high m b1 b2 hso pos hpos]
    cases h1 : parseOneLayer b1 pos with
    | error e => rfl
    | ok v =>
    obtain ⟨l, p1⟩ := v
    have e1 := parseOneLayer_pos_le b1 pos l p1 h1
    dsimp only
    rw [ih p1 (by omega)]

/-- The run-length loop never moves the cursor backwards. -/
theorem rleLoopGo_pos_le (buf : List Nat) (area : Nat) :
    ∀ fuel acc pos d q, rleLoopGo buf area fuel acc pos = .ok (d, q) → pos ≤ q := by
  intro fuel
  induction fuel with
  | zero =>
    intro acc pos d q h
    rw [rleLoopGo.eq_def] at h
    split at h
    · cases h
    · cases h
      exact le_refl _
  | succ f ih =>
    intro acc pos d q h
    rw [rleLoopGo.eq_def] at h
    split at h
    · dsimp only at h
      cases h8 : read8 buf pos with
      | error e => rw [h8] at h; cases h
      | ok v =>
        obtain ⟨len, p1⟩ := v
        rw [h8] at h
        dsimp only at h
        have e8 := read8_ok buf pos len p1 h8
        by_cases hsm : len < 128
        · rw [if_pos hsm] at h
          cases hr : readRun buf (len + 1) p1 with
          | error e => rw [hr] at h; cases h
          | ok w =>
            obtain ⟨bs, p2⟩ := w
            rw [hr] at h
            dsimp only at h
            have er := readRun_pos_le buf (len + 1) p1 bs p2 hr
            have := ih (acc ++ bs) p2 d q h
            omega
        · rw [if_neg hsm] at h
          by_cases hbig : 128 < len
          · rw [if_pos hbig] at h
            cases h9 : read8 buf p1 with
            | error e => rw [h9] at h; cases h
            | ok w =>
              obtain ⟨b, p2⟩ := w
              rw [h9] at h
              dsimp only at h
              have e9 := read8_ok buf p1 b p2 h9
              have := ih (acc ++ List.replicate ((257 - len) % 256) b) p2 d q h
              omega
          · rw [if_neg hbig] at h
            have := ih acc p1 d q h
            omega
    · cases h
      exact le_refl _

/-- A run-length decode performed entirely above the modified field is
unaffected. -/
theorem rleLoopGo_high (m : Nat) (b1 b2 : List Nat) (hso : sameOutside m b1 b2)
    (area : Nat) :
    ∀ fuel acc pos, m + 4 ≤ pos →
      rleLoopGo b2 area fuel acc pos = rleLoopGo b1 area fuel acc pos := by
  intro fuel
  induction fuel with
  | zero =>
    intro acc pos _
    rw [rleLoopGo.eq_def, rleLoopGo.eq_def]
  | succ f ih =>
    intro acc pos hpos
    rw [rleLoopGo.eq_def, rleLoopGo.eq_def]
    by_cases hlt : acc.length < area
    · rw [if_pos hlt, if_pos hlt]
      dsimp only
      rw [read8_congr m b1 b2 hso pos (Or.inr (by omega))]
      cases h8 : read8 b1 pos with
      | error e => rfl
      | ok v =>
        obtain ⟨len, p1⟩ := v
        have e8 := read8_ok b1 pos len p1 h8
        dsimp only
        by_cases hsm : len < 128
        · rw [if_pos hsm, if_pos hsm]
          rw [readRun_high m b1 b2 hso (len + 1) p1 (by omega)]
          cases hr : readRun b1 (len + 1) p1 with
          | error e => rfl
          | ok w =>
            obtain ⟨bs, p2⟩ := w
            have er := readRun_pos_le b1 (len + 1) p1 bs p2 hr
            dsimp only
            exact ih (acc ++ bs) p2 (by omega)
        · rw [if_neg hsm, if_neg hsm]
          by_cases hbig : 128 < len
          · rw [if_pos hbig, if_pos hbig]
            rw [read8_congr m b1 b2 hso p1 (Or.inr (by omega))]
            cases h9 : read8 b1 p1 with
            | error e => rfl
            | ok w =>
              obtain ⟨b, p2⟩ := w
              have e9 := read8_ok b1 p1 b p2 h9
              dsimp only
              exact ih (acc ++ List.replicate ((257 - len) % 256) b) p2 (by omega)
          · rw [if_neg hbig, if_neg hbig]
            exact ih acc p1 (by omega)
    · rw [if_neg hlt, if_neg hlt]

/-- `rleLoop`'s (length-derived) fuel agrees on same-length buffers. -/
theorem rleLoop_high (m : Nat) (b1 b2 : List Nat) (hso : sameOutside m b1 b2)
    (area : Nat) (acc : List Nat) (pos : Nat) (hpos : m + 4 ≤ pos) :
    rleLoop b2 area acc pos = rleLoop b1 area acc pos := by
  unfold rleLoop
  rw [← hso.1]
  exact rleLoopGo_high m b1 b2 hso area (b1.length + 1) acc pos hpos

/-- The raw-channel slice taken entirely above the modified field is
unaffected. -/
theorem drop_take_congr (m : Nat) (b1 b2 : List Nat) (hso : sameOutside m b1 b2)
    (p a : Nat) (hp : m + 4 ≤ p) : (b2.drop p).take a = (b1.drop p).take a := by
  apply List.ext_getElem?
  intro i
  rw [List.getElem?_take, List.getElem?_take]
  by_cases hia : i < a
  · rw [if_pos hia, if_pos hia, List.getElem?_drop b2 p i, List.getElem?_drop b1 p i]
    exact sameOutside_getElem? m b1 b2 hso (p + i) (Or.inr (by omega))
  · rw [if_neg hia, if_neg hia]

/-- A channel decode never moves the cursor backwards. -/
theorem decodeChannel_pos_le (buf : List Nat) (w h pos : Nat) (d : List Nat) (q : Nat)
    (hok : decodeChannel buf w h pos = .ok (d, q)) : pos ≤ q := by
  simp only [decodeChannel] at hok
  split at hok
  · cases hok
  · rename_i comp p1 h16
    have e16 := read16_ok buf pos comp p1 h16
    split at hok
    · split at hok
      · cases hok
        omega
      · cases hok
    · split at hok
      · have := rleLoopGo_pos_le buf ((w * h) % U32) (buf.length + 1) []
          (p1 + (2 * h) % U32) d q hok
        omega
      · cases hok

/-- A channel decode performed entirely above the modified field is
unaffected. -/
theorem decodeChannel_high (m : Nat) (b1 b2 : List Nat) (hso : sameOutside m b1 b2)
    (w h pos : Nat) (hpos : m + 4 ≤ pos) :
    decodeChannel b2 w h pos = decodeChannel b1 w h pos := by
  simp only [decodeChannel]
  rw [read16_congr m b1 b2 hso pos (Or.inr (by omega))]
  cases h16 : read16 b1 pos with
  | error e => rfl
  | ok v =>
    obtain ⟨comp, p1⟩ := v
    have e16 := read16_ok b1 pos comp p1 h16
    dsimp only
    by_cases hc0 : comp = 0
    · rw [if_pos hc0, if_pos hc0, ← hso.1]
      by_cases hfit : p1 + (w * h) % U32 ≤ b1.length
      · rw [if_pos hfit, if_pos hfit,
          drop_take_congr m b1 b2 hso p1 ((w * h) % U32) (by omega)]
      · rw [if_neg hfit, if_neg hfit]
    · rw [if_neg hc0, if_neg hc0]
      by_cases hc1 : comp = 1
      · rw [if_pos hc1, if_pos hc1]
        exact rleLoop_high m b1 b2 hso ((w * h) % U32) [] (p1 + (2 * h) % U32) (by omega)
      · rw [if_neg hc1, if_neg hc1]

/-- A layer's channel-data decode never moves the cursor backwards. -/
theorem decodeLayerChannels_pos_le (buf : List Nat) (w h : Nat) :
    ∀ cs pos cs' q, decodeLayerChannels buf w h cs pos = .ok (cs', q) → pos ≤ q := by
  intro cs
  induction cs with
  | nil =>
    intro pos cs' q hok
    simp only [decodeLayerChannels] at hok
    cases hok
    exact le_refl _
  | cons c cs ih =>
    intro pos cs' q hok
    simp only [decodeLayerChannels] at hok
    split at hok
    · cases hok
    · rename_i d p1 h1
      split at hok
      · cases hok
      · rename_i cs2 p2 h2
        cases hok
        have e1 := decodeChannel_pos_le buf w h pos d p1 h1
        have e2 := ih p1 cs2 q h2
        omega

/-- A layer's channel-data decode entirely above the modified field is
unaffected. -/
theorem decodeLayerChannels_high (m : Nat) (b1 b2 : List Nat) (hso : sameOutside m b1 b2)
    (w h : Nat) :
    ∀ cs pos, m + 4 ≤ pos →
      decodeLayerChannels b2 w h cs pos = decodeLayerChannels b1 w h cs pos := by
  intro cs
  induction cs with
  | nil =>
    intro pos _
    rfl
  | cons c cs ih =>
    intro pos hpos
    simp only [decodeLayerChannels]
    rw [decodeChannel_high m b1 b2 hso w h pos hpos]
    cases h1 : decodeChannel b1 w h pos with
    | error e => rfl
    | ok v =>
      obtain ⟨d, p1⟩ := v
      have e1 := decodeChannel_pos_le b1 w h pos d p1 h1
      dsimp only
      rw [ih p1 (by omega)]

/-- The whole channel-image-data phase, which starts after every layer
record, is unaffected by the modified field when it starts above it. -/
theorem decodeAllChannels_high (m : Nat) (b1 b2 : List Nat) (hso : sameOutside m b1 b2) :
    ∀ ls pos, m + 4 ≤ pos →
      decodeAllChannels b2 ls pos = decodeAllChannels b1 ls pos := by
  intro ls
  induction ls with
  | nil =>
    intro pos _
    rfl
  | cons l ls ih =>
    intro pos hpos
    simp only [decodeAllChannels]
    rw [decodeLayerChannels_high m b1 b2 hso (w32sub l.right l.left) (w32sub l.bot l.top)
      l.channels pos hpos]
    cases h1 : decodeLayerChannels b1 (w32sub l.right l.left) (w32sub l.bot l.top)
        l.channels pos with
    | error e => rfl
    | ok v =>
      obtain ⟨chs, p1⟩ := v
      have e1 := decodeLayerChannels_pos_le b1 _ _ l.channels pos chs p1 h1
      dsimp only
      rw [ih p1 (by omega)]

/-- A successful name read ending at or below the modified field reads the
same bytes through either buffer. -/
theorem readNameBytes_low (m : Nat) (b1 b2 : List Nat) (hso : sameOutside m b1 b2) :
    ∀ n pos bs q, readNameBytes b1 n pos = .ok (bs, q) → q ≤ m →
      readNameBytes b2 n pos = .ok (bs, q) := by
  intro n
  induction n with
  | zero =>
    intro pos bs q h _
    exact h
  | succ n ih =>
    intro pos bs q h hq
    simp only [readNameBytes] at h ⊢
    cases h8 : read8 b1 pos with
    | error e => rw [h8] at h; cases h
    | ok v =>
      obtain ⟨b, p1⟩ := v
      rw [h8] at h
      dsimp only at h
      have e8 := read8_ok b1 pos b p1 h8
      cases hrec : readNameBytes b1 n p1 with
      | error e => rw [hrec] at h; cases h
      | ok w =>
        obtain ⟨bs2, p2⟩ := w
        rw [hrec] at h
        dsimp only at h
        cases h
        have hq2 := readNameBytes_pos b1 n p1 bs2 q hrec
        rw [read8_congr m b1 b2 hso pos (Or.inl (by omega)), h8]
        dsimp only
        rw [ih p1 bs2 q hrec (by omega)]

/-- A successful padding read ending at or below the modified field is
unchanged. -/
theorem readPaddingGo_low (m : Nat) (b1 b2 : List Nat) (hso : sameOutside m b1 b2) :
    ∀ fuel len pos q, readPaddingGo b1 fuel len pos = .ok q → q ≤ m →
      readPaddingGo b2 fuel len pos = .ok q := by
  intro fuel
  induction fuel with
  | zero =>
    intro len pos q h hq
    rw [readPaddingGo] at h ⊢
    split at h
    · rename_i hz
      rw [if_pos hz]
      exact h
    · cases h
  | succ f ih =>
    intro len pos q h hq
    rw [readPaddingGo] at h ⊢
    by_cases hz : len % 4 = 0
    · rw [if_pos hz] at h ⊢
      exact h
    · rw [if_neg hz] at h ⊢
      cases h8 : read8 b1 pos with
      | error e => rw [h8] at h; cases h
      | ok v =>
        obtain ⟨b, p1⟩ := v
        rw [h8] at h
        dsimp only at h
        have e8 := read8_ok b1 pos b p1 h8
        have hple := readPaddingGo_pos_le b1 f (len + 1) p1 q h
        rw [read8_congr m b1 b2 hso pos (Or.inl (by omega)), h8]
        dsimp only
        exact ih (len + 1) p1 q h hq

/-- `readPadding` version of `readPaddingGo_low`. -/
theorem readPadding_low (m : Nat) (b1 b2 : List Nat) (hso : sameOutside m b1 b2)
    (len pos q : Nat) (h : readPadding b1 len pos = .ok q) (hq : q ≤ m) :
    readPadding b2 len pos = .ok q :=
  readPaddingGo_low m b1 b2 hso 3 len pos q h hq

/-- A successful descriptor parse ending at or below the modified field is
unchanged. -/
theorem parseChannelDescs_low (m : Nat) (b1 b2 : List Nat) (hso : sameOutside m b1 b2) :
    ∀ n pos chs q, parseChannelDescs b1 n pos = .ok (chs, q) → q ≤ m →
      parseChannelDescs b2 n pos = .ok (chs, q) := by
  intro n
  induction n with
  | zero =>
    intro pos chs q h _
    exact h
  | succ n ih =>
    intro pos chs q h hq
    have hq6 := parseChannelDescs_pos b1 (n + 1) pos chs q h
    simp only [parseChannelDescs] at h ⊢
    cases h16 : read16 b1 pos with
    | error e => rw [h16] at h; cases h
    | ok v =>
      obtain ⟨k, p1⟩ := v
      rw [h16] at h
      dsimp only at h
      have e16 := read16_ok b1 pos k p1 h16
      cases h32 : read32 b1 p1 with
      | error e => rw [h32] at h; cases h
      | ok w =>
        obtain ⟨len, p2⟩ := w
        rw [h32] at h
        dsimp only at h
        have e32 := read32_ok b1 p1 len p2 h32
        cases hrec : parseChannelDescs b1 n p2 with
        | error e => rw [hrec] at h; cases h
        | ok u =>
          obtain ⟨chs2, p3⟩ := u
          rw [hrec] at h
          dsimp only at h
          cases h
          have hp3 := parseChannelDescs_pos b1 n p2 chs2 q hrec
          rw [read16_congr m b1 b2 hso pos (Or.inl (by omega)), h16]
          dsimp only
          rw [read32_congr m b1 b2 hso p1 (Or.inl (by omega)), h32]
          dsimp only
          rw [ih p2 chs2 q hrec (by omega)]

/-- A successful record tail ending at or below the modified field is
unchanged. -/
theorem parseOneLayerRest_low (m : Nat) (b1 b2 : List Nat) (hso : sameOutside m b1 b2)
    (top left bot right : Nat) (chs : List RawChannel) (pos : Nat) (l : RawLayer) (q : Nat)
    (h : parseOneLayerRest b1 top left bot right chs pos = .ok (l, q)) (hq : q ≤ m) :
    parseOneLayerRest b2 top left bot right chs pos = .ok (l, q) := by
  simp only [parseOneLayerRest] at h ⊢
  cases hsig : read32 b1 pos with
  | error e => rw [hsig] at h; cases h
  | ok v =>
  obtain ⟨sig, p7⟩ := v
  rw [hsig] at h
  dsimp only at h
  have e1 := read32_ok b1 pos sig p7 hsig
  by_cases hs : sig ≠ 0x3842494D
  · rw [if_pos hs] at h
    cases h
  · rw [if_neg hs] at h
    cases hbl : read32 b1 p7 with
    | error e => rw [hbl] at h; cases h
    | ok v =>
    obtain ⟨bl, p8⟩ := v
    rw [hbl] at h
    dsimp only at h
    have e2 := read32_ok b1 p7 bl p8 hbl
    cases hop : read8 b1 p8 with
    | error e => rw [hop] at h; cases h
    | ok v =>
    obtain ⟨op, p9⟩ := v
    rw [hop] at h
    dsimp only at h
    have e3 := read8_ok b1 p8 op p9 hop
    cases hcl : read8 b1 p9 with
    | error e => rw [hcl] at h; cases h
    | ok v =>
    obtain ⟨cl, p10⟩ := v
    rw [hcl] at h
    dsimp only at h
    have e4 := read8_ok b1 p9 cl p10 hcl
    cases hfl : read8 b1 p10 with
    | error e => rw [hfl] at h; cases h
    | ok v =>
    obtain ⟨fl, p11⟩ := v
    rw [hfl] at h
    dsimp only at h
    have e5 := read8_ok b1 p10 fl p11 hfl
    cases hz : read8 b1 p11 with
    | error e => rw [hz] at h; cases h
    | ok v =>
    obtain ⟨z, p12⟩ := v
    rw [hz] at h
    dsimp only at h
    have e6 := read8_ok b1 p11 z p12 hz
    cases hle : read32 b1 p12 with
    | error e => rw [hle] at h; cases h
    | ok v =>
    obtain ⟨lenExtra, p13⟩ := v
    rw [hle] at h
    dsimp only at h
    have e7 := read32_ok b1 p12 lenExtra p13 hle
    cases hml : read32 b1 p13 with
    | error e => rw [hml] at h; cases h
    | ok v =>
    obtain ⟨maskLen, p14⟩ := v
    rw [hml] at h
    dsimp only at h
    have e8 := read32_ok b1 p13 maskLen p14 hml
    cases hsk1 : skipN b1 maskLen p14 with
    | error e => rw [hsk1] at h; cases h
    | ok p15 =>
    rw [hsk1] at h
    dsimp only at h
    have e9 := skipN_ok b1 maskLen p14 p15 hsk1
    cases hrl : read32 b1 p15 with
    | error e => rw [hrl] at h; cases h
    | ok v =>
    obtain ⟨rangesLen, p16⟩ := v
    rw [hrl] at h
    dsimp only at h
    have e10 := read32_ok b1 p15 rangesLen p16 hrl
    cases hsk2 : skipN b1 rangesLen p16 with
    | error e => rw [hsk2] at h; cases h
    | ok p17 =>
    rw [hsk2] at h
    dsimp only at h
    have e11 := skipN_ok b1 rangesLen p16 p17 hsk2
    cases hn0 : read8 b1 p17 with
    | error e => rw [hn0] at h; cases h
    | ok v =>
    obtain ⟨n0, p18⟩ := v
    rw [hn0] at h
    dsimp only at h
    have e12 := read8_ok b1 p17 n0 p18 hn0
    cases hnm : readNameBytes b1 n0 p18 with
    | error e => rw [hnm] at h; cases h
    | ok v =>
    obtain ⟨nm, p19⟩ := v
    rw [hnm] at h
    dsimp only at h
    have e13 := readNameBytes_pos b1 n0 p18 nm p19 hnm
    cases hpd : readPadding b1 (1 + n0) p19 with
    | error e => rw [hpd] at h; cases h
    | ok p20 =>
    rw [hpd] at h
    dsimp only at h
    have e14 := readPaddingGo_pos_le b1 3 (1 + n0) p19 p20 hpd
    by_cases hee : p20 ≤ p13 + lenExtra
    · rw [if_pos hee] at h
      cases hsk3 : skipN b1 (p13 + lenExtra - p20) p20 with
      | error e => rw [hsk3] at h; cases h
      | ok p21 =>
      rw [hsk3] at h
      dsimp only at h
      cases h
      have e15 := skipN_ok b1 (p13 + lenExtra - p20) p20 q hsk3
      rw [read32_congr m b1 b2 hso pos (Or.inl (by omega)), hsig]
      dsimp only
      rw [if_neg hs]
      rw [read32_congr m b1 b2 hso p7 (Or.inl (by omega)), hbl]
      dsimp only
      rw [read8_congr m b1 b2 hso p8 (Or.inl (by omega)), hop]
      dsimp only
      rw [read8_congr m b1 b2 hso p9 (Or.inl (by omega)), hcl]
      dsimp only
      rw [read8_congr m b1 b2 hso p10 (Or.inl (by omega)), hfl]
      dsimp only
      rw [read8_congr m b1 b2 hso p11 (Or.inl (by omega)), hz]
      dsimp only
      rw [read32_congr m b1 b2 hso p12 (Or.inl (by omega)), hle]
      dsimp only
      rw [read32_congr m b1 b2 hso p13 (Or.inl (by omega)), hml]
      dsimp only
      rw [skipN_congr m b1 b2 hso maskLen p14, hsk1]
      dsimp only
      rw [read32_congr m b1 b2 hso p15 (Or.inl (by omega)), hrl]
      dsimp only
      rw [skipN_congr m b1 b2 hso rangesLen p16, hsk2]
      dsimp only
      rw [read8_congr m b1 b2 hso p17 (Or.inl (by omega)), hn0]
      dsimp only
      rw [readNameBytes_low m b1 b2 hso n0 p18 nm p19 hnm (by omega)]
      dsimp only
      rw [readPadding_low m b1 b2 hso (1 + n0) p19 p20 hpd (by omega)]
      dsimp only
      rw [if_pos hee]
      rw [skipN_congr m b1 b2 hso (p13 + lenExtra - p20) p20, hsk3]
    · rw [if_neg hee] at h
      cases h

/-- A successful layer record ending at or below the modified field is
unchanged. -/
theorem parseOneLayer_low (m : Nat) (b1 b2 : List Nat) (hso : sameOutside m b1 b2)
    (pos : Nat) (l : RawLayer) (q : Nat)
    (h : parseOneLayer b1 pos = .ok (l, q)) (hq : q ≤ m) :
    parseOneLayer b2 pos = .ok (l, q) := by
  simp only [parseOneLayer] at h ⊢
  cases h1 : read32 b1 pos with
  | error e => rw [h1] at h; cases h
  | ok v =>
  obtain ⟨top, p1⟩ := v
  rw [h1] at h
  dsimp only at h
  have e1 := read32_ok b1 pos top p1 h1
  cases h2 : read32 b1 p1 with
  | error e => rw [h2] at h; cases h
  | ok v =>
  obtain ⟨left, p2⟩ := v
  rw [h2] at h
  dsimp only at h
  have e2 := read32_ok b1 p1 left p2 h2
  cases h3 : read32 b1 p2 with
  | error e => rw [h3] at h; cases h
  | ok v =>
  obtain ⟨bot, p3⟩ := v
  rw [h3] at h
  dsimp only at h
  have e3 := read32_ok b1 p2 bot p3 h3
  cases h4 : read32 b1 p3 with
  | error e => rw [h4] at h; cases h
  | ok v =>
  obtain ⟨right, p4⟩ := v
  rw [h4] at h
  dsimp only at h
  have e4 := read32_ok b1 p3 right p4 h4
  cases h5 : read16 b1 p4 with
  | error e => rw [h5] at h; cases h
  | ok v =>
  obtain ⟨chCount, p5⟩ := v
  rw [h5] at h
  dsimp only at h
  have e5 := read16_ok b1 p4 chCount p5 h5
  cases h6 : parseChannelDescs b1 chCount p5 with
  | error e => rw [h6] at h; cases h
  | ok v =>
  obtain ⟨chs, p6⟩ := v
  rw [h6] at h
  dsimp only at h
  have e6 := parseChannelDescs_pos b1 chCount p5 chs p6 h6
  have e7 := parseOneLayerRest_pos_le b1 top left bot right chs p6 l q h
  rw [read32_congr m b1 b2 hso pos (Or.inl (by omega)), h1]
  dsimp only
  rw [read32_congr m b1 b2 hso p1 (Or.inl (by omega)), h2]
  dsimp only
  rw [read32_congr m b1 b2 hso p2 (Or.inl (by omega)), h3]
  dsimp only
  rw [read32_congr m b1 b2 hso p3 (Or.inl (by omega)), h4]
  dsimp only
  rw [read16_congr m b1 b2 hso p4 (Or.inl (by omega)), h5]
  dsimp only
  rw [parseChannelDescs_low m b1 b2 hso chCount p5 chs p6 h6 (by omega)]
  dsimp only
  exact parseOneLayerRest_low m b1 b2 hso top left bot right chs p6 l q h hq

/-- A successful layer-record prefix ending at or below the modified field is
unchanged. -/
theorem parseLayerRecords_low (m : Nat) (b1 b2 : List Nat) (hso : sameOutside m b1 b2) :
    ∀ n pos ls q, parseLayerRecords b1 n pos = .ok (ls, q) → q ≤ m →
      parseLayerRecords b2 n pos = .ok (ls, q) := by
  intro n
  induction n with
  | zero =>
    intro pos ls q h _
    exact h
  | succ n ih =>
    intro pos ls q h hq
    simp only [parseLayerRecords] at h ⊢
    cases h1 : parseOneLayer b1 pos with
    | error e => rw [h1] at h; cases h
    | ok v =>
    obtain ⟨l, p1⟩ := v
    rw [h1] at h
    dsimp only at h
    cases h2 : parseLayerRecords b1 n p1 with
    | error e => rw [h2] at h; cases h
    | ok w =>
    obtain ⟨ls2, p2⟩ := w
    rw [h2] at h
    dsimp only at h
    cases h
    have e2 := parseLayerRecords_pos_le b1 n p1 ls2 q h2
    rw [parseOneLayer_low m b1 b2 hso pos l p1 h1 (by omega)]
    dsimp only
    rw [ih p1 ls2 q h2 hq]

/-- The key step: modifying the 4-byte per-channel length field of descriptor
`k` (of `n`) changes nothing — the field's value is read into a local and
discarded, so only the cursor advance (identical on both buffers, as the
lengths agree) survives. -/
theorem parseChannelDescs_at (b1 b2 : List Nat) :
    ∀ k n pos, k < n → sameOutside (pos + 6 * k + 2) b1 b2 →
      parseChannelDescs b2 n pos = parseChannelDescs b1 n pos := by
  intro k
  induction k with
  | zero =>
    intro n pos hk hso
    cases n with
    | zero => exact absurd hk (by omega)
    | succ n =>
      simp only [parseChannelDescs]
      rw [read16_congr (pos + 6 * 0 + 2) b1 b2 hso pos (Or.inl (by omega))]
      cases h16 : read16 b1 pos with
      | error e => rfl
      | ok v =>
        obtain ⟨kk, p1⟩ := v
        have e16 := read16_ok b1 pos kk p1 h16
        dsimp only
        by_cases hchk : p1 + 4 > b1.length
        · have hb1 : read32 b1 p1 = .error .truncatedInput := by
            rw [read32, if_pos hchk]
          have hb2 : read32 b2 p1 = .error .truncatedInput := by
            rw [read32, if_pos (by have := hso.1; omega)]
          rw [hb1, hb2]
        · have hv1 : ∃ v1, read32 b1 p1 = .ok (v1, p1 + 4) :=
            ⟨_, by rw [read32, if_neg hchk]⟩
          have hv2 : ∃ v2, read32 b2 p1 = .ok (v2, p1 + 4) :=
            ⟨_, by rw [read32, if_neg (by have := hso.1; omega)]⟩
          obtain ⟨v1, hv1⟩ := hv1
          obtain ⟨v2, hv2⟩ := hv2
          rw [hv1, hv2]
          dsimp only
          rw [parseChannelDescs_high (pos + 6 * 0 + 2) b1 b2 hso n (p1 + 4) (by omega)]
  | succ k ih =>
    intro n pos hk hso
    cases n with
    | zero => exact absurd hk (by omega)
    | succ n =>
      simp only [parseChannelDescs]
      rw [read16_congr (pos + 6 * (k + 1) + 2) b1 b2 hso pos (Or.inl (by omega))]
      cases h16 : read16 b1 pos with
      | error e => rfl
      | ok v =>
        obtain ⟨kk, p1⟩ := v
        have e16 := read16_ok b1 pos kk p1 h16
        dsimp only
        rw [read32_congr (pos + 6 * (k + 1) + 2) b1 b2 hso p1 (Or.inl (by omega))]
        cases h32 : read32 b1 p1 with
        | error e => rfl
        | ok w =>
          obtain ⟨len, p2⟩ := w
          have e32 := read32_ok b1 p1 len p2 h32
          dsimp only
          have hso' : sameOutside (p2 + 6 * k + 2) b1 b2 := by
            rw [(show p2 + 6 * k + 2 = pos + 6 * (k + 1) + 2 by omega)]
            exact hso
          rw [ih n p2 (by omega) hso']

/-- Modifying a per-channel length field inside a layer record leaves the
whole record's parse unchanged; moreover a successful parse of that record
ends beyond the modified field. -/
theorem parseOneLayer_at (b1 b2 : List Nat) (pos k n : Nat)
    (h4 : read16 b1 (pos + 16) = .ok (n, pos + 18)) (h5 : k < n)
    (hso : sameOutside (pos + 18 + 6 * k + 2) b1 b2) :
    parseOneLayer b2 pos = parseOneLayer b1 pos ∧
    ∀ l q, parseOneLayer b1 pos = .ok (l, q) → pos + 18 + 6 * k + 2 + 4 ≤ q := by
  have hlen := (read16_ok b1 (pos + 16) n (pos + 18) h4).2
  have hr1 : ∃ v, read32 b1 pos = .ok (v, pos + 4) :=
    ⟨_, by rw [read32, if_neg (by omega)]⟩
  obtain ⟨top, hr1⟩ := hr1
  have hr2 : ∃ v, read32 b1 (pos + 4) = .ok (v, pos + 4 + 4) :=
    ⟨_, by rw [read32, if_neg (by omega)]⟩
  obtain ⟨left, hr2⟩ := hr2
  have hr3 : ∃ v, read32 b1 (pos + 4 + 4) = .ok (v, pos + 4 + 4 + 4) :=
    ⟨_, by rw [read32, if_neg (by omega)]⟩
  obtain ⟨bot, hr3⟩ := hr3
  have hr4 : ∃ v, read32 b1 (pos + 4 + 4 + 4) = .ok (v, pos + 4 + 4 + 4 + 4) :=
    ⟨_, by rw [read32, if_neg (by omega)]⟩
  obtain ⟨right, hr4⟩ := hr4
  have h4' : read16 b1 (pos + 4 + 4 + 4 + 4) = .ok (n, pos + 18) := by
    rw [(show pos + 4 + 4 + 4 + 4 = pos + 16 by omega)]
    exact h4
  constructor
  · simp only [parseOneLayer]
    rw [read32_congr (pos + 18 + 6 * k + 2) b1 b2 hso pos (Or.inl (by omega)), hr1]
    dsimp only
    rw [read32_congr (pos + 18 + 6 * k + 2) b1 b2 hso (pos + 4) (Or.inl (by omega)), hr2]
    dsimp only
    rw [read32_congr (pos + 18 + 6 * k + 2) b1 b2 hso (pos + 4 + 4) (Or.inl (by omega)), hr3]
    dsimp only
    rw [read32_congr (pos + 18 + 6 * k + 2) b1 b2 hso (pos + 4 + 4 + 4) (Or.inl (by omega)),
      hr4]
    dsimp only
    rw [read16_congr (pos + 18 + 6 * k + 2) b1 b2 hso (pos + 4 + 4 + 4 + 4)
      (Or.inl (by omega)), h4']
    dsimp only
    have hdescs : parseChannelDescs b2 n (pos + 18) = parseChannelDescs b1 n (pos + 18) :=
      parseChannelDescs_at b1 b2 k n (pos + 18) h5 hso
    rw [hdescs]
    cases hdesc1 : parseChannelDescs b1 n (pos + 18) with
    | error e => rfl
    | ok v =>
      obtain ⟨chs, p6⟩ := v
      have e6 := parseChannelDescs_pos b1 n (pos + 18) chs p6 hdesc1
      dsimp only
      exact parseOneLayerRest_high (pos + 18 + 6 * k + 2) b1 b2 hso top left bot right
        chs p6 (by omega)
  · intro l q hok
    simp only [parseOneLayer] at hok
    rw [hr1] at hok
    dsimp only at hok
    rw [hr2] at hok
    dsimp only at hok
    rw [hr3] at hok
    dsimp only at hok
    rw [hr4] at hok
    dsimp only at hok
    rw [h4'] at hok
    dsimp only at hok
    cases hdesc1 : parseChannelDescs b1 n (pos + 18) with
    | error e => rw [hdesc1] at hok; cases hok
    | ok v =>
      obtain ⟨chs, p6⟩ := v
      rw [hdesc1] at hok
      dsimp only at hok
      have e6 := parseChannelDescs_pos b1 n (pos + 18) chs p6 hdesc1
      have e7 := parseOneLayerRest_pos_le b1 top left bot right chs p6 l q hok
      omega

/-- The fixed header parse ends at the layer-count position `p0`; when `p0`
lies at or below the modified field the whole header phase (including the
member mutations) is unaffected by it. -/
theorem psdHeader_congr (m : Nat) (b1 b2 : List Nat) (hso : sameOutside m b1 b2)
    (st : PsdState) (count p0 : Nat)
    (hok : (psdHeader b1 st).1 = .ok (count, p0)) (hp0 : p0 ≤ m) :
    psdHeader b2 st = psdHeader b1 st := by
  simp only [psdHeader] at hok
  cases hA1 : read32 b1 0 with
  | error e => rw [hA1] at hok; dsimp only at hok; cases hok
  | ok v =>
  obtain ⟨sig, p1⟩ := v
  rw [hA1] at hok
  dsimp only at hok
  have e1 := read32_ok b1 0 sig p1 hA1
  split at hok
  · cases hok
  · rename_i hsigok
    cases hA2 : read16 b1 p1 with
    | error e => rw [hA2] at hok; dsimp only at hok; cases hok
    | ok v =>
    obtain ⟨ver, p2⟩ := v
    rw [hA2] at hok
    dsimp only at hok
    have e2 := read16_ok b1 p1 ver p2 hA2
    split at hok
    · cases hok
    · rename_i hverok
      cases hA3 : skipN b1 6 p2 with
      | error e => rw [hA3] at hok; dsimp only at hok; cases hok
      | ok p3 =>
      rw [hA3] at hok
      dsimp only at hok
      have e3 := skipN_ok b1 6 p2 p3 hA3
      cases hA4 : read16 b1 p3 with
      | error e => rw [hA4] at hok; dsimp only at hok; cases hok
      | ok v =>
      obtain ⟨chans, p4⟩ := v
      rw [hA4] at hok
      dsimp only at hok
      have e4 := read16_ok b1 p3 chans p4 hA4
      cases hA5 : read32 b1 p4 with
      | error e => rw [hA5] at hok; dsimp only at hok; cases hok
      | ok v =>
      obtain ⟨hv, p5⟩ := v
      rw [hA5] at hok
      dsimp only at hok
      have e5 := read32_ok b1 p4 hv p5 hA5
      cases hA6 : read32 b1 p5 with
      | error e => rw [hA6] at hok; dsimp only at hok; cases hok
      | ok v =>
      obtain ⟨wv, p6⟩ := v
      rw [hA6] at hok
      dsimp only at hok
      have e6 := read32_ok b1 p5 wv p6 hA6
      cases hA7 : read16 b1 p6 with
      | error e => rw [hA7] at hok; dsimp only at hok; cases hok
      | ok v =>
      obtain ⟨depth, p7⟩ := v
      rw [hA7] at hok
      dsimp only at hok
      have e7 := read16_ok b1 p6 depth p7 hA7
      split at hok
      · cases hok
      · rename_i hdepthok
        cases hA8 : read16 b1 p7 with
        | error e => rw [hA8] at hok; dsimp only at hok; cases hok
        | ok v =>
        obtain ⟨mode, p8⟩ := v
        rw [hA8] at hok
        dsimp only at hok
        have e8 := read16_ok b1 p7 mode p8 hA8
        split at hok
        · cases hok
        · rename_i hmodeok
          cases hA9 : read32 b1 p8 with
          | error e => rw [hA9] at hok; dsimp only at hok; cases hok
          | ok v =>
          obtain ⟨colorLen, p9⟩ := v
          rw [hA9] at hok
          dsimp only at hok
          have e9 := read32_ok b1 p8 colorLen p9 hA9
          cases hA10 : skipN b1 colorLen p9 with
          | error e => rw [hA10] at hok; dsimp only at hok; cases hok
          | ok p10 =>
          rw [hA10] at hok
          dsimp only at hok
          have e10 := skipN_ok b1 colorLen p9 p10 hA10
          cases hA11 : read32 b1 p10 with
          | error e => rw [hA11] at hok; dsimp only at hok; cases hok
          | ok v =>
          obtain ⟨resLen, p11⟩ := v
          rw [hA11] at hok
          dsimp only at hok
          have e11 := read32_ok b1 p10 resLen p11 hA11
          cases hA12 : skipN b1 resLen p11 with
          | error e => rw [hA12] at hok; dsimp only at hok; cases hok
          | ok p12 =>
          rw [hA12] at hok
          dsimp only at hok
          have e12 := skipN_ok b1 resLen p11 p12 hA12
          cases hA13 : read32 b1 p12 with
          | error e => rw [hA13] at hok; dsimp only at hok; cases hok
          | ok v =>
          obtain ⟨lms, p13⟩ := v
          rw [hA13] at hok
          dsimp only at hok
          have e13 := read32_ok b1 p12 lms p13 hA13
          cases hA14 : read32 b1 p13 with
          | error e => rw [hA14] at hok; dsimp only at hok; cases hok
          | ok v =>
          obtain ⟨ll, p14⟩ := v
          rw [hA14] at hok
          dsimp only at hok
          have e14 := read32_ok b1 p13 ll p14 hA14
          cases hA15 : read16 b1 p14 with
          | error e => rw [hA15] at hok; dsimp only at hok; cases hok
          | ok v =>
          obtain ⟨cntRaw, p15⟩ := v
          rw [hA15] at hok
          dsimp only at hok
          have e15 := read16_ok b1 p14 cntRaw p15 hA15
          cases hok
          simp only [psdHeader]
          rw [read32_congr m b1 b2 hso 0 (Or.inl (by omega)), hA1]
          dsimp only
          rw [if_neg hsigok, if_neg hsigok]
          rw [read16_congr m b1 b2 hso p1 (Or.inl (by omega)), hA2]
          dsimp only
          rw [if_neg hverok, if_neg hverok]
          rw [skipN_congr m b1 b2 hso 6 p2, hA3]
          dsimp only
          rw [read16_congr m b1 b2 hso p3 (Or.inl (by omega)), hA4]
          dsimp only
          rw [read32_congr m b1 b2 hso p4 (Or.inl (by omega)), hA5]
          dsimp only
          rw [read32_congr m b1 b2 hso p5 (Or.inl (by omega)), hA6]
          dsimp only
          rw [read16_congr m b1 b2 hso p6 (Or.inl (by omega)), hA7]
          dsimp only
          rw [if_neg hdepthok, if_neg hdepthok]
          rw [read16_congr m b1 b2 hso p7 (Or.inl (by omega)), hA8]
          dsimp only
          rw [if_neg hmodeok, if_neg hmodeok]
          rw [read32_congr m b1 b2 hso p8 (Or.inl (by omega)), hA9]
          dsimp only
          rw [skipN_congr m b1 b2 hso colorLen p9, hA10]
          dsimp only
          rw [read32_congr m b1 b2 hso p10 (Or.inl (by omega)), hA11]
          dsimp only
          rw [skipN_congr m b1 b2 hso resLen p11, hA12]
          dsimp only
          rw [read32_congr m b1 b2 hso p12 (Or.inl (by omega)), hA13]
          dsimp only
          rw [read32_congr m b1 b2 hso p13 (Or.inl (by omega)), hA14]
          dsimp only
          rw [read16_congr m b1 b2 hso p14 (Or.inl (by omega)), hA15]

/-- The layer-record loop over `a + b` records runs the first `a` and then
the remaining `b` from where the first part stopped. -/
theorem parseLayerRecords_split (buf : List Nat) :
    ∀ a b pos, parseLayerRecords buf (a + b) pos =
      match parseLayerRecords buf a pos with
      | .error e => .error e
      | .ok (ls1, q) =>
        match parseLayerRecords buf b q with
        | .error e => .error e
        | .ok (ls2, q2) => .ok (ls1 ++ ls2, q2) := by
  intro a
  induction a with
  | zero =>
    intro b pos
    rw [Nat.zero_add]
    simp only [parseLayerRecords]
    cases h : parseLayerRecords buf b pos with
    | error e => rfl
    | ok v =>
      obtain ⟨ls, q⟩ := v
      dsimp only
      rw [List.nil_append]
  | succ a ih =>
    intro b pos
    rw [(show a + 1 + b = (a + b) + 1 by omega)]
    simp only [parseLayerRecords]
    cases h1 : parseOneLayer buf pos with
    | error e => rfl
    | ok v =>
      obtain ⟨l, p1⟩ := v
      dsimp only
      rw [ih b p1]
      cases h2 : parseLayerRecords buf a p1 with
      | error e => rfl
      | ok w =>
        obtain ⟨ls1, q⟩ := w
        dsimp only
        cases h3 : parseLayerRecords buf b q with
        | error e => rfl
        | ok u =>
          obtain ⟨ls2, q2⟩ := u
          dsimp only
          rw [List.cons_append]

/-- C10: the Document produced by the decode does not depend on the values of
the per-channel byte-length fields in the layer records.  For the length
field of channel descriptor `k` of layer `i` (starting at `pI + 18 + 6k + 2`
when layer `i`'s record starts at `pI`), any second buffer of the same length
agreeing everywhere outside that 4-byte field decodes to exactly the same
result — the field is read to advance the cursor and then discarded.
Buffers differing in several such fields are handled by applying the theorem
once per field. -/
theorem C10_length_field_independence
    (b1 b2 : List Nat) (st : PsdState) (count p0 i k n pI : Nat)
    (ls : List RawLayer)
    (h1 : (psdHeader b1 st).1 = .ok (count, p0))
    (h2 : parseLayerRecords b1 i p0 = .ok (ls, pI))
    (h3 : i < count)
    (h4 : read16 b1 (pI + 16) = .ok (n, pI + 18))
    (h5 : k < n)
    (hso : sameOutside (pI + 18 + 6 * k + 2) b1 b2) :
    psdLoad b2 st = psdLoad b1 st := by
  have hpI := parseLayerRecords_pos_le b1 i p0 ls pI h2
  have hcore := parseOneLayer_at b1 b2 pI k n h4 h5 hso
  have hh := psdHeader_congr (pI + 18 + 6 * k + 2) b1 b2 hso st count p0 h1 (by omega)
  simp only [psdLoad]
  rw [hh]
  cases hH : psdHeader b1 st with
  | mk exc st2 =>
    rw [hH] at h1
    dsimp only at h1
    cases exc with
    | error e => cases h1
    | ok r =>
      cases h1
      dsimp only
      rw [(show count = i + (count - i) by omega)]
      rw [parseLayerRecords_split b1 i (count - i) p0,
        parseLayerRecords_split b2 i (count - i) p0]
      rw [parseLayerRecords_low (pI + 18 + 6 * k + 2) b1 b2 hso i p0 ls pI h2 (by omega),
        h2]
      dsimp only
      rw [(show count - i = (count - i - 1) + 1 by omega)]
      simp only [parseLayerRecords]
      rw [hcore.1]
      cases hrec : parseOneLayer b1 pI with
      | error e => rfl
      | ok v =>
        obtain ⟨l, q⟩ := v
        have hq := hcore.2 l q hrec
        dsimp only
        rw [parseLayerRecords_high (pI + 18 + 6 * k + 2) b1 b2 hso (count - i - 1) q
          (by omega)]
        cases hrest : parseLayerRecords b1 (count - i - 1) q with
        | error e => rfl
        | ok w =>
          obtain ⟨ls2, p2⟩ := w
          have hp2 := parseLayerRecords_pos_le b1 (count - i - 1) q ls2 p2 hrest
          dsimp only
          rw [decodeAllChannels_high (pI + 18 + 6 * k + 2) b1 b2 hso (ls ++ l :: ls2) p2
            (by omega)]

theorem C10_length_field_independence_witness :
    sameOutside (44 + 18 + 6 * 0 + 2) bufOneLayerRaw bufOneLayerRawAlt ∧
    bufOneLayerRaw ≠ bufOneLayerRawAlt ∧
    psdLoad bufOneLayerRawAlt ⟨0, 0, []⟩ = psdLoad bufOneLayerRaw ⟨0, 0, []⟩ :=
  ⟨by decide, by decide,
    C10_length_field_independence bufOneLayerRaw bufOneLayerRawAlt ⟨0, 0, []⟩
      1 44 0 0 1 44 [] (by rfl) (by rfl) (by decide) (by rfl) (by decide)
      (by decide)⟩
